import Mathlib

/-!
Verification development for the voxanet planet-voxel core.

The Rust sources are shallowly embedded:
* machine integers (`u8`, `u32`) become `ℕ` (no arithmetic in the verified
  fragments ever wraps);
* `HashSet<BlockId>` becomes `Finset BlockId`, `HashMap<K, V>` becomes the
  lookup function `K → Option V` (with `entry(..).or_insert(..)` modelled by
  `Option.getD` plus a pointwise update);
* `f32`/`f64` arithmetic becomes exact real arithmetic over `ℝ` (or `ℚ`
  where the source only uses field operations), which is the reading under
  which the spec's "within fractional tolerance" statements are settled;
* the `Instant` clock becomes a rational time parameter.
-/

namespace Voxanet

/-! ## common.rs — data model -/

/-- `CHUNK_SIZE` from common.rs. -/
def CHUNK_SIZE : ℕ := 32

/-- `BlockId` from common.rs: `{face: u8, layer: u32, u: u32, v: u32}`. -/
structure BlockId where
  face : ℕ
  layer : ℕ
  u : ℕ
  v : ℕ
deriving DecidableEq, Repr

/-- `ChunkKey` from common.rs. -/
structure ChunkKey where
  face : ℕ
  u_idx : ℕ
  v_idx : ℕ
deriving DecidableEq, Repr

/-- `LodKey` from common.rs. -/
structure LodKey where
  face : ℕ
  x : ℕ
  y : ℕ
  size : ℕ
deriving DecidableEq, Repr

/-- `ChunkMods` from common.rs: two `HashSet<BlockId>`. -/
structure ChunkMods where
  mined : Finset BlockId
  placed : Finset BlockId
deriving DecidableEq

/-- `ChunkMods::new`. -/
def ChunkMods.new : ChunkMods := ⟨∅, ∅⟩

/-- `PlanetTerrain` from noise.rs: a flattened height map plus its
resolution.  The `Vec<u16>` is modelled as a total index function (all
reads in the source are in bounds). -/
structure PlanetTerrain where
  heights : ℕ → ℕ
  resolution : ℕ

/-- `PlanetTerrain::get_index`. -/
def PlanetTerrain.get_index (face u v res : ℕ) : ℕ :=
  face * res * res + v * res + u

/-- `PlanetTerrain::get_height`. -/
def PlanetTerrain.get_height (t : PlanetTerrain) (face u v : ℕ) : ℕ :=
  let u_safe := min u (t.resolution - 1)
  let v_safe := min v (t.resolution - 1)
  t.heights (PlanetTerrain.get_index face u_safe v_safe t.resolution)

/-- `PlanetData` from common.rs. -/
structure PlanetData where
  chunks : ChunkKey → Option ChunkMods
  resolution : ℕ
  has_core : Bool
  terrain : PlanetTerrain

/-- `PlanetData::get_chunk_key`. -/
def PlanetData.get_chunk_key (id : BlockId) : ChunkKey :=
  ⟨id.face, id.u / CHUNK_SIZE, id.v / CHUNK_SIZE⟩

/-- The mods of the chunk owning `id`, as `add_block`/`remove_block` see them
after `entry(key).or_insert_with(ChunkMods::new)`. -/
def PlanetData.owner_mods (pd : PlanetData) (id : BlockId) : ChunkMods :=
  (pd.chunks (PlanetData.get_chunk_key id)).getD ChunkMods.new

/-- The mutation `add_block` applies to the owning chunk's mods. -/
def addMods (mods : ChunkMods) (id : BlockId) : ChunkMods :=
  if id ∈ mods.mined then { mods with mined := mods.mined.erase id }
  else { mods with placed := insert id mods.placed }

/-- `PlanetData::add_block`. -/
def PlanetData.add_block (pd : PlanetData) (id : BlockId) : PlanetData :=
  let key := PlanetData.get_chunk_key id
  let mods' := addMods ((pd.chunks key).getD ChunkMods.new) id
  { pd with chunks := fun k => if k = key then some mods' else pd.chunks k }

/-- The mutation `remove_block` applies to the owning chunk's mods (after
the core-protection early return); `res` is `self.resolution`. -/
def removeMods (mods : ChunkMods) (id : BlockId) (res : ℕ) : ChunkMods :=
  if id ∈ mods.placed then { mods with placed := mods.placed.erase id }
  else if id.layer < res then { mods with mined := insert id mods.mined }
  else mods

/-- `PlanetData::remove_block`.  Note that when neither branch fires the
`entry(..).or_insert_with(..)` call has still materialised the chunk entry. -/
def PlanetData.remove_block (pd : PlanetData) (id : BlockId) : PlanetData :=
  if pd.has_core ∧ id.layer < 6 then pd
  else
    let key := PlanetData.get_chunk_key id
    let mods' := removeMods ((pd.chunks key).getD ChunkMods.new) id pd.resolution
    { pd with chunks := fun k => if k = key then some mods' else pd.chunks k }

/-- `PlanetData::exists` (named `exists_block` here because `exists` is a
reserved word in Lean). -/
def PlanetData.exists_block (pd : PlanetData) (id : BlockId) : Bool :=
  let height := pd.terrain.get_height id.face id.u id.v
  match pd.chunks (PlanetData.get_chunk_key id) with
  | some mods =>
      if id ∈ mods.placed then true
      else if id ∈ mods.mined then false
      else decide (id.layer ≤ height)
  | none => decide (id.layer ≤ height)

/-- States reachable from an empty edit overlay (the state `PlanetData::new`
produces) by any sequence of `add_block`/`remove_block` calls. -/
inductive PlanetData.Reachable : PlanetData → Prop where
  | init (pd : PlanetData) (h : pd.chunks = fun _ => none) : PlanetData.Reachable pd
  | add (pd : PlanetData) (id : BlockId) (h : PlanetData.Reachable pd) :
      PlanetData.Reachable (pd.add_block id)
  | remove (pd : PlanetData) (id : BlockId) (h : PlanetData.Reachable pd) :
      PlanetData.Reachable (pd.remove_block id)

/-- The mutual-exclusion invariant on edit overlays: no id is in both the
`mined` and the `placed` set of any chunk. -/
def PlanetData.NoBoth (pd : PlanetData) : Prop :=
  ∀ k mods, pd.chunks k = some mods → ∀ id : BlockId,
    ¬(id ∈ mods.mined ∧ id ∈ mods.placed)

/-- Auxiliary invariant: every mined id has `layer < resolution` (only
`remove_block` inserts into `mined`, under exactly that guard). -/
def PlanetData.MinedBound (pd : PlanetData) : Prop :=
  ∀ k mods, pd.chunks k = some mods → ∀ id ∈ mods.mined, id.layer < pd.resolution

/-! ## lod_animation.rs — FadeAnimator

`Instant` values become rationals; `(now - start).as_secs_f32()` becomes
`now - start`.  The maps `dying_chunks`/`spawning_chunks` are modelled as
lookup functions as above. -/

/-- `AnyKey` from lod_animation.rs. -/
inductive AnyKey where
  | Voxel (k : ChunkKey)
  | Lod (k : LodKey)
deriving DecidableEq, Repr

/-- `FadeState` from lod_animation.rs (the mesh payload is irrelevant to the
opacity claims and is dropped). -/
structure FadeState where
  start_time : ℚ
  start_alpha : ℚ
  target_alpha : ℚ
  duration : ℚ
deriving DecidableEq

/-- `LodAnimator` from lod_animation.rs. -/
structure LodAnimator where
  dying_chunks : AnyKey → Option FadeState
  spawning_chunks : AnyKey → Option ℚ
  fade_duration : ℚ

/-- `LodAnimator::new` (the 2.0-second fade duration). -/
def LodAnimator.new : LodAnimator :=
  ⟨fun _ => none, fun _ => none, 2⟩

/-- `LodAnimator::smoothstep`. -/
def LodAnimator.smoothstep (t : ℚ) : ℚ :=
  let t := max 0 (min t 1)
  t * t * (3 - 2 * t)

/-- `LodAnimator::start_spawn`. -/
def LodAnimator.start_spawn (a : LodAnimator) (key : AnyKey) (now : ℚ) : LodAnimator :=
  { a with
    dying_chunks := fun k => if k = key then none else a.dying_chunks k
    spawning_chunks := fun k => if k = key then some now else a.spawning_chunks k }

/-- `LodAnimator::retire`. -/
def LodAnimator.retire (a : LodAnimator) (key : AnyKey) (now : ℚ) : LodAnimator :=
  { a with
    dying_chunks := fun k =>
      if k = key then some ⟨now, 1, 0, a.fade_duration⟩ else a.dying_chunks k
    spawning_chunks := fun k => if k = key then none else a.spawning_chunks k }

/-- `LodAnimator::get_opacity`. -/
def LodAnimator.get_opacity (a : LodAnimator) (key : AnyKey) (now : ℚ) : ℚ :=
  match a.spawning_chunks key with
  | some start =>
      let elapsed := now - start
      let linear_t := elapsed / a.fade_duration
      LodAnimator.smoothstep linear_t
  | none => 1

/-- The alpha `LodAnimator::update_dying` reports for one key at time `now`:
`none` when the entry has completed (`linear_t ≥ 1`, at which point the loop
removes it), otherwise `some (1 - smoothstep linear_t)` — the per-key view of
the `results.push((key, alpha))` loop body. -/
def LodAnimator.update_dying_alpha (a : LodAnimator) (key : AnyKey) (now : ℚ) : Option ℚ :=
  match a.dying_chunks key with
  | some state =>
      let elapsed := now - state.start_time
      let linear_t := elapsed / state.duration
      if 1 ≤ linear_t then none
      else some (1 - LodAnimator.smoothstep linear_t)
  | none => none

/-! ## renderer.rs — streaming scheduler (`update_view` / `process_load_queue`)

The scheduler bookkeeping is modelled as a state machine.  Mesh payloads,
GPU buffers and the quadtree traversal do not affect the scheduling claims;
the per-tick inputs that the omitted parts produce (the required chunk set,
the final required LOD set after the keep-alive adjustment together with its
`HashSet` iteration order, the chunk-center distance function derived from
the camera position, and the batches of worker results available on the two
channels) are passed in as parameters of the tick. -/

/-- The scheduler-relevant fields of `Renderer`. -/
structure RendererSt where
  chunks : Finset ChunkKey
  lod_chunks : Finset LodKey
  pending_chunks : Finset ChunkKey
  pending_lods : Finset LodKey
  load_queue : List ChunkKey
deriving DecidableEq

/-- The initial scheduler state (everything empty). -/
def RendererSt.init : RendererSt := ⟨∅, ∅, ∅, ∅, []⟩

/-- Per-tick inputs of `update_view` (see the section comment). -/
structure TickIn where
  lodDone : List LodKey
  reqLods : List LodKey
  reqVox : Finset ChunkKey
  reqVoxIter : List ChunkKey
  dist : ChunkKey → ℚ
  chunkDone : List (ChunkKey × Bool)

/-- The `while let Ok(..) = self.lod_rx.try_recv()` drain at the top of
`update_view`: each completed LOD is removed from `pending_lods` and
uploaded; at most 21 messages are handled (`upload_count > 20` breaks). -/
def drainLods : List LodKey → ℕ → RendererSt → RendererSt
  | [], _, s => s
  | k :: rest, count, s =>
      let s := { s with
        pending_lods := s.pending_lods.erase k
        lod_chunks := insert k s.lod_chunks }
      let count := count + 1
      if count > 20 then s else drainLods rest count s

/-- The LOD spawn loop of `update_view`: walk the required set, skip keys
already resident or pending, stop after 8 spawns (`spawn_count >= 8`).
Returns the new state and the list of spawned jobs in order. -/
def spawnLods : List LodKey → ℕ → RendererSt → RendererSt × List LodKey
  | [], _, s => (s, [])
  | k :: rest, spawn_count, s =>
      if k ∉ s.lod_chunks ∧ k ∉ s.pending_lods then
        if 8 ≤ spawn_count then (s, [])
        else
          let s := { s with pending_lods := insert k s.pending_lods }
          let r := spawnLods rest (spawn_count + 1) s
          (r.1, k :: r.2)
      else spawnLods rest spawn_count s

/-- The `for k in required_voxels { .. push .. }` loop of `update_view`:
append each required chunk that is neither resident nor already queued. -/
def pushMissing : List ChunkKey → RendererSt → RendererSt
  | [], s => s
  | k :: rest, s =>
      let s :=
        if k ∉ s.chunks ∧ k ∉ s.load_queue
        then { s with load_queue := s.load_queue ++ [k] }
        else s
      pushMissing rest s

/-- Insertion into a list kept in descending `dist` order (larger distances
first), mirroring the `sort_by` comparator `db.partial_cmp(&da)`. -/
def insertDesc (d : ChunkKey → ℚ) (k : ChunkKey) : List ChunkKey → List ChunkKey
  | [] => [k]
  | a :: t => if d a < d k then k :: a :: t else a :: insertDesc d k t

/-- The `load_queue.sort_by(..)` call: sort so that the farthest chunk is
first and the nearest last (`Vec::pop` then takes the nearest). -/
def sortDesc (d : ChunkKey → ℚ) : List ChunkKey → List ChunkKey
  | [] => []
  | a :: t => insertDesc d a (sortDesc d t)

/-- The `while let Ok(..) = self.mesh_rx.try_recv()` drain at the top of
`process_load_queue`: remove from `pending_chunks`; upload (and spend
budget) only when the mesh is non-empty; stop when the budget reaches 0.
Returns the state and the remaining budget. -/
def drainMesh : List (ChunkKey × Bool) → RendererSt → ℤ → RendererSt × ℤ
  | [], s, budget => (s, budget)
  | (k, nonempty) :: rest, s, budget =>
      let s := { s with
        pending_chunks := s.pending_chunks.erase k
        chunks := if nonempty then insert k s.chunks else s.chunks }
      let budget := if nonempty then budget - 1 else budget
      if budget ≤ 0 then (s, budget) else drainMesh rest s budget

/-- The dispatch loop of `process_load_queue`: up to 4 iterations, each pops
the tail of `load_queue`; a popped key already resident or pending is
skipped (`continue`), otherwise it is marked pending and its generation job
spawned.  Returns the new state and the dispatched keys in order. -/
def spawnLoop : ℕ → RendererSt → RendererSt × List ChunkKey
  | 0, s => (s, [])
  | n + 1, s =>
      match s.load_queue.getLast? with
      | none => (s, [])
      | some k =>
          let s := { s with load_queue := s.load_queue.dropLast }
          if k ∈ s.chunks ∨ k ∈ s.pending_chunks then spawnLoop n s
          else
            let s := { s with pending_chunks := insert k s.pending_chunks }
            let r := spawnLoop n s
            (r.1, k :: r.2)

/-- `Renderer::process_load_queue`. -/
def process_load_queue (chunkDone : List (ChunkKey × Bool)) (s : RendererSt) :
    RendererSt × List ChunkKey :=
  let r := drainMesh chunkDone s 4
  let s := r.1
  if r.2 ≤ 0 then (s, [])
  else if s.load_queue = [] then (s, [])
  else if 12 ≤ s.pending_chunks.card then (s, [])
  else spawnLoop 4 s

/-- The streaming part of `Renderer::update_view` up to (but excluding) the
final `process_load_queue` call: drain LOD results, retire LOD tiles that
are neither required nor kept alive (`lod_chunks.filter`), spawn required
LOD jobs, retire chunks that are no longer required, rebuild and sort the
pending chunk queue. -/
def rebuildPhase (p : TickIn) (s : RendererSt) : RendererSt × List LodKey :=
  let s := drainLods p.lodDone 0 s
  let s := { s with lod_chunks := s.lod_chunks.filter (· ∈ p.reqLods) }
  let r := spawnLods p.reqLods 0 s
  let s := r.1
  let s := { s with chunks := s.chunks.filter (· ∈ p.reqVox) }
  let s := { s with load_queue := s.load_queue.filter (· ∈ p.reqVox) }
  let s := pushMissing p.reqVoxIter s
  let s := { s with load_queue := sortDesc p.dist s.load_queue }
  (s, r.2)

/-- One full streaming tick (`Renderer::update_view`): the rebuild phase
followed by `process_load_queue`.  Returns the new state, the LOD jobs
admitted this tick and the chunk jobs dispatched this tick. -/
def tick (p : TickIn) (s : RendererSt) : RendererSt × List LodKey × List ChunkKey :=
  let r := rebuildPhase p s
  let q := process_load_queue p.chunkDone r.1
  (q.1, r.2, q.2)

/-- Scheduler states reachable from startup by streaming ticks. -/
inductive RendererSt.Reachable : RendererSt → Prop where
  | init : RendererSt.Reachable RendererSt.init
  | step (p : TickIn) (s : RendererSt) (h : RendererSt.Reachable s) :
      RendererSt.Reachable (tick p s).1

/-! ## gen.rs — CoordSystem

`glam::Vec3` becomes a triple of exact reals; `f32`/`f64` arithmetic becomes
real arithmetic. -/

/-- `glam::Vec3` over exact reals. -/
structure Vec3 where
  x : ℝ
  y : ℝ
  z : ℝ

instance : Add Vec3 := ⟨fun a b => ⟨a.x + b.x, a.y + b.y, a.z + b.z⟩⟩

instance : Sub Vec3 := ⟨fun a b => ⟨a.x - b.x, a.y - b.y, a.z - b.z⟩⟩

instance : Neg Vec3 := ⟨fun a => ⟨-a.x, -a.y, -a.z⟩⟩

instance : SMul ℝ Vec3 := ⟨fun c v => ⟨c * v.x, c * v.y, c * v.z⟩⟩

/-- `Vec3::ZERO`. -/
def Vec3.ZERO : Vec3 := ⟨0, 0, 0⟩

/-- `Vec3::length`. -/
noncomputable def Vec3.length (v : Vec3) : ℝ :=
  Real.sqrt (v.x ^ 2 + v.y ^ 2 + v.z ^ 2)

/-- `Vec3::length_squared`. -/
def Vec3.length_squared (v : Vec3) : ℝ := v.x ^ 2 + v.y ^ 2 + v.z ^ 2

/-- `Vec3::dot`. -/
def Vec3.dot (a b : Vec3) : ℝ := a.x * b.x + a.y * b.y + a.z * b.z

/-- `Vec3::cross`. -/
def Vec3.cross (a b : Vec3) : Vec3 :=
  ⟨a.y * b.z - a.z * b.y, a.z * b.x - a.x * b.z, a.x * b.y - a.y * b.x⟩

/-- `Vec3::abs`. -/
def Vec3.abs (v : Vec3) : Vec3 := ⟨|v.x|, |v.y|, |v.z|⟩

/-- `Vec3::normalize` (division by the length). -/
noncomputable def Vec3.normalize (v : Vec3) : Vec3 := (v.length)⁻¹ • v

/-- `Vec3::normalize_or_zero`. -/
noncomputable def Vec3.normalize_or_zero (v : Vec3) : Vec3 :=
  if v.length = 0 then Vec3.ZERO else v.normalize

/-- `glam`'s `Vec3::any_orthogonal_vector`. -/
noncomputable def Vec3.any_orthogonal_vector (v : Vec3) : Vec3 :=
  if |v.x| > |v.y| then ⟨-v.z, 0, v.x⟩ else ⟨0, v.z, -v.y⟩

/-- `CoordSystem::K`. -/
noncomputable def K : ℝ := 0.85

/-- `CoordSystem::cube_to_sphere`. -/
noncomputable def cube_to_sphere (x y z : ℝ) : Vec3 :=
  let x2 := x * x
  let y2 := y * y
  let z2 := z * z
  ⟨x * Real.sqrt (1 - y2 * 0.5 - z2 * 0.5 + y2 * z2 / 3),
   y * Real.sqrt (1 - z2 * 0.5 - x2 * 0.5 + z2 * x2 / 3),
   z * Real.sqrt (1 - x2 * 0.5 - y2 * 0.5 + x2 * y2 / 3)⟩

/-- `INVERSE_SQRT_2` from gen.rs.  The source literal `0.70710676908493042`
is `1/sqrt 2` rounded to `f32` precision; the exact-real embedding uses the
exact value. -/
noncomputable def INVERSE_SQRT_2 : ℝ := (Real.sqrt 2)⁻¹

/-- One coordinate of the inversion block of `cubize_point`: the
zero-guard, the square root of the prepared argument scaled by
`INVERSE_SQRT_2`, the clamp to 1 and the sign restore from the original
component `p`. -/
noncomputable def recover_coord (p arg : ℝ) : ℝ :=
  let p1 := if p = 0 then 0 else Real.sqrt arg * INVERSE_SQRT_2
  let p2 := if p1 > 1 then 1 else p1
  if p < 0 then -p2 else p2

/-- The per-axis quadratic inversion block of `CoordSystem::cubize_point`.
The source repeats this block verbatim three times — once per dominant
axis, fed with the two non-dominant components (`(x,z)`, `(y,z)` and
`(x,y)` respectively); it is factored out here.  `p`/`q` are those two
components of the input point; the result is the recovered pair of cube
coordinates. -/
noncomputable def quad_pair (p q : ℝ) : ℝ × ℝ :=
  let a2 := p * p * 2
  let b2 := q * q * 2
  let inner := -a2 + b2 - 3
  let inner_sqrt := -Real.sqrt (inner * inner - 12 * a2)
  (recover_coord p (inner_sqrt + a2 - b2 + 3),
   recover_coord q (inner_sqrt - a2 + b2 + 3))

/-- `CoordSystem::cubize_point`. -/
noncomputable def cubize_point (pos : Vec3) : Vec3 :=
  let fx := |pos.x|
  let fy := |pos.y|
  let fz := |pos.z|
  if fy ≥ fx ∧ fy ≥ fz then
    let r := quad_pair pos.x pos.z
    ⟨r.1, if pos.y > 0 then 1 else -1, r.2⟩
  else if fx ≥ fy ∧ fx ≥ fz then
    let r := quad_pair pos.y pos.z
    ⟨if pos.x > 0 then 1 else -1, r.1, r.2⟩
  else
    let r := quad_pair pos.x pos.y
    ⟨r.1, r.2, if pos.z > 0 then 1 else -1⟩

/-- `CoordSystem::get_layer_radius`. -/
noncomputable def get_layer_radius (layer res : ℕ) : ℝ :=
  let s := (res : ℝ) / 2
  s * Real.exp (K * ((layer : ℝ) / s - 1))

/-- `CoordSystem::get_direction`. -/
noncomputable def get_direction (face u v res : ℕ) : Vec3 :=
  let rf : ℝ := res
  let x_local : ℝ := if u = 0 then -1 else if u = res then 1 else ((u : ℝ) * 2 - rf) / rf
  let y_local : ℝ := if v = 0 then -1 else if v = res then 1 else ((v : ℝ) * 2 - rf) / rf
  let c : ℝ × ℝ × ℝ :=
    match face with
    | 0 => (x_local, 1, y_local)
    | 1 => (x_local, -1, y_local)
    | 2 => (1, x_local, y_local)
    | 3 => (-1, x_local, y_local)
    | 4 => (x_local, y_local, 1)
    | _ => (x_local, y_local, -1)
  (cube_to_sphere c.1 c.2.1 c.2.2).normalize

/-- `CoordSystem::get_vertex_pos` (`dir * radius`). -/
noncomputable def get_vertex_pos (face u v layer res : ℕ) : Vec3 :=
  let dir := get_direction face u v res
  let radius := get_layer_radius layer res
  radius • dir

/-- `CoordSystem::get_local_coords`.  Returns the `BlockId` together with
the fractional in-cell offset `(f_u, f_v, f_layer)`. -/
noncomputable def get_local_coords (pos : Vec3) (res : ℕ) : Option (BlockId × Vec3) :=
  let dist := pos.length
  let s := (res : ℝ) / 2
  let min_r := s * Real.exp (-K)
  if dist < min_r then none
  else
    let layer_f := s * (1 + Real.log (dist / s) / K)
    let layer : ℤ := ⌊layer_f⌋
    if layer < 0 ∨ (res : ℤ) ≤ layer then none
    else
      let f_layer := layer_f - (layer : ℝ)
      let cube_pos := cubize_point pos.normalize
      let a := cube_pos.abs
      let fuv : ℕ × ℝ × ℝ :=
        if a.y ≥ a.x ∧ a.y ≥ a.z then
          if cube_pos.y > 0 then (0, cube_pos.x, cube_pos.z) else (1, cube_pos.x, cube_pos.z)
        else if a.x ≥ a.y ∧ a.x ≥ a.z then
          if cube_pos.x > 0 then (2, cube_pos.y, cube_pos.z) else (3, cube_pos.y, cube_pos.z)
        else
          if cube_pos.z > 0 then (4, cube_pos.x, cube_pos.y) else (5, cube_pos.x, cube_pos.y)
      let rf : ℝ := res
      let u_raw := (fuv.2.1 * rf + rf) / 2
      let v_raw := (fuv.2.2 * rf + rf) / 2
      let u : ℤ := ⌊u_raw⌋
      let v : ℤ := ⌊v_raw⌋
      let f_u := u_raw - (u : ℝ)
      let f_v := v_raw - (v : ℝ)
      some (⟨fuv.1, layer.toNat, (min (max u 0) ((res : ℤ) - 1)).toNat,
             (min (max v 0) ((res : ℤ) - 1)).toNat⟩,
            ⟨f_u, f_v, f_layer⟩)

/-! ## noise.rs — terrain generation -/

/-- `NoiseType` from noise.rs. -/
inductive NoiseType where
  | Perlin
  | Simplex
  | Cellular

/-- `NoiseSettings` from noise.rs. -/
structure NoiseSettings where
  noise_type : NoiseType
  frequency : ℝ
  amplitude : ℝ
  octaves : ℕ
  persistence : ℝ
  lacunarity : ℝ
  offset : Vec3

/-- `NoiseSettings::default_terrain`. -/
noncomputable def NoiseSettings.default_terrain (res : ℕ) : NoiseSettings :=
  ⟨NoiseType.Perlin, (res : ℝ) / 100, 24, 4, 0.5, 2, Vec3.ZERO⟩

/-- One step of the seeded LCG in `NoiseGenerator::new`
(`wrapping_mul(1664525).wrapping_add(1013904223)` on `u32`). -/
def lcgNext (state : ℕ) : ℕ := (state * 1664525 + 1013904223) % 2 ^ 32

/-- Swap two positions of a list (the `permutation.swap(i, j)` call). -/
def listSwap (l : List ℕ) (i j : ℕ) : List ℕ :=
  (l.set i (l.getD j 0)).set j (l.getD i 0)

/-- The Fisher–Yates loop of `NoiseGenerator::new`:
`for i in (1..256).rev() { state = lcg(state); j = state % (i+1); swap(i,j) }`,
invoked with `i₀ = 255`. -/
def fisherYates : ℕ → ℕ → List ℕ → ℕ × List ℕ
  | 0, state, perm => (state, perm)
  | n + 1, state, perm =>
      let i := n + 1
      let state := lcgNext state
      let j := state % (i + 1)
      fisherYates n state (listSwap perm i j)

/-- `NoiseGenerator` from noise.rs.  The 512-entry doubled table
`p[i] = p[i+256] = permutation[i]` is modelled as the index function
`i ↦ permutation[i % 256]`, which agrees with the doubled array on every
index `< 512` (all indices the source ever reads). -/
structure NoiseGenerator where
  perm : ℕ → ℕ

/-- `NoiseGenerator::new`. -/
def NoiseGenerator.new (seed : ℕ) : NoiseGenerator :=
  let permutation := (fisherYates 255 seed (List.range 256)).2
  ⟨fun i => permutation.getD (i % 256) 0⟩

/-- `fade` from noise.rs. -/
def fade (t : ℝ) : ℝ := t * t * t * (t * (t * 6 - 15) + 10)

/-- `lerp` from noise.rs. -/
def lerp (t a b : ℝ) : ℝ := a + t * (b - a)

/-- `grad` from noise.rs (`hash & 15`, `h & 1`, `h & 2` become `% 16`,
`% 2`, `/ 2 % 2` on `ℕ`). -/
def grad (hash : ℕ) (x y z : ℝ) : ℝ :=
  let h := hash % 16
  let u := if h < 8 then x else y
  let v := if h < 4 then y else if h = 12 ∨ h = 14 then x else z
  (if h % 2 = 0 then u else -u) + (if h / 2 % 2 = 0 then v else -v)

/-- `NoiseGenerator::perlin`.  `x as i32 & 255` on the floored coordinate
becomes `⌊x⌋ % 256` (two's-complement `& 255` is exactly `mod 256`). -/
noncomputable def NoiseGenerator.perlin (g : NoiseGenerator) (pos : Vec3) : ℝ :=
  let X := ((⌊pos.x⌋ : ℤ) % 256).toNat
  let Y := ((⌊pos.y⌋ : ℤ) % 256).toNat
  let Z := ((⌊pos.z⌋ : ℤ) % 256).toNat
  let x := pos.x - ⌊pos.x⌋
  let y := pos.y - ⌊pos.y⌋
  let z := pos.z - ⌊pos.z⌋
  let u := fade x
  let v := fade y
  let w := fade z
  let A := g.perm X + Y
  let AA := g.perm A + Z
  let AB := g.perm (A + 1) + Z
  let B := g.perm (X + 1) + Y
  let BA := g.perm B + Z
  let BB := g.perm (B + 1) + Z
  lerp w
    (lerp v (lerp u (grad (g.perm AA) x y z) (grad (g.perm BA) (x - 1) y z))
            (lerp u (grad (g.perm AB) x (y - 1) z) (grad (g.perm BB) (x - 1) (y - 1) z)))
    (lerp v (lerp u (grad (g.perm (AA + 1)) x y (z - 1)) (grad (g.perm (BA + 1)) (x - 1) y (z - 1)))
            (lerp u (grad (g.perm (AB + 1)) x (y - 1) (z - 1))
                    (grad (g.perm (BB + 1)) (x - 1) (y - 1) (z - 1))))

/-- `NoiseGenerator::compute_base`. -/
noncomputable def NoiseGenerator.compute_base (g : NoiseGenerator) (p : Vec3)
    (t : NoiseType) : ℝ :=
  match t with
  | NoiseType.Perlin => (g.perlin p + 1) * 0.5
  | NoiseType.Simplex => 0
  | NoiseType.Cellular => 0

/-- The octave accumulation loop of `NoiseGenerator::compute`; the
accumulator is `(total_val, total_amp, amp, freq)`. -/
noncomputable def octavesGo (g : NoiseGenerator) (pos : Vec3) (st : NoiseSettings) :
    ℕ → ℝ × ℝ × ℝ × ℝ → ℝ × ℝ × ℝ × ℝ
  | 0, acc => acc
  | n + 1, (total_val, total_amp, amp, freq) =>
      let sample_pos := freq • pos + st.offset
      octavesGo g pos st n
        (total_val + g.compute_base sample_pos st.noise_type * amp,
         total_amp + amp, amp * st.persistence, freq * st.lacunarity)

/-- `NoiseGenerator::compute`. -/
noncomputable def NoiseGenerator.compute (g : NoiseGenerator) (pos : Vec3)
    (st : NoiseSettings) : ℝ :=
  if st.octaves ≤ 1 then
    g.compute_base (st.frequency • pos + st.offset) st.noise_type
  else
    let r := octavesGo g pos st st.octaves (0, 0, 1, st.frequency)
    if r.2.1 > 0 then r.1 / r.2.1 else 0

/-- The height value `PlanetTerrain::new` stores for one `(face, u, v)`
cell: seeded noise on the face direction, scaled and clamped;
`(..).max(1.0) as u16` is truncation of a value ≥ 1, i.e. the floor. -/
noncomputable def terrainHeight (seed res face u v : ℕ) : ℕ :=
  let generator := NoiseGenerator.new seed
  let settings := NoiseSettings.default_terrain res
  let base_radius := (res : ℝ) / 2
  let dir := get_direction face u v res
  let noise_val := generator.compute dir settings
  let h_offset := noise_val * settings.amplitude
  (⌊max (base_radius + h_offset) 1⌋).toNat

/-- `PlanetTerrain::new` (seed fixed at 42).  The flattened `Vec<u16>` is
modelled by decoding `get_index` back into `(face, u, v)`. -/
noncomputable def PlanetTerrain.new (resolution : ℕ) : PlanetTerrain :=
  ⟨fun idx =>
      let face := idx / (resolution * resolution)
      let rem := idx % (resolution * resolution)
      terrainHeight 42 resolution face (rem % resolution) (rem / resolution),
   resolution⟩

/-! ## physics.rs — PhysicsSolver -/

namespace Physics

/-- Constants from physics.rs. -/
noncomputable def GRAVITY : ℝ := 12

noncomputable def PLAYER_HEIGHT : ℝ := 1.8

noncomputable def EYE_HEIGHT : ℝ := 1.6

noncomputable def PLAYER_RADIUS : ℝ := 0.3

noncomputable def STEP_HEIGHT : ℝ := 0.6

/-- `Physics::get_up_vector`. -/
noncomputable def get_up_vector (pos : Vec3) : Vec3 := pos.normalize_or_zero

/-- `Physics::is_solid`: resolve the point to a block plus fractional
offset; absent blocks are air; near-face slivers whose neighbor is absent
are shaved off. -/
noncomputable def is_solid (pos : Vec3) (planet : PlanetData) : Bool :=
  let res := planet.resolution
  match get_local_coords pos res with
  | none =>
      let s := (res : ℝ) / 2
      let min_r := s * Real.exp (-(0.85 : ℝ))
      decide (pos.length < min_r)
  | some (id, lcl) =>
      if planet.exists_block id = false then false
      else
        let margin : ℝ := 0.05
        let u_air :=
          if lcl.x < margin ∧ 0 < id.u then
            !planet.exists_block { id with u := id.u - 1 }
          else if lcl.x > 1 - margin ∧ id.u < res - 1 then
            !planet.exists_block { id with u := id.u + 1 }
          else false
        if u_air then false
        else
          let v_air :=
            if lcl.y < margin ∧ 0 < id.v then
              !planet.exists_block { id with v := id.v - 1 }
            else if lcl.y > 1 - margin ∧ id.v < res - 1 then
              !planet.exists_block { id with v := id.v + 1 }
            else false
          if v_air then false
          else
            let layer_air :=
              if lcl.z < margin ∧ 0 < id.layer then
                !planet.exists_block { id with layer := id.layer - 1 }
              else if lcl.z > 1 - margin ∧ id.layer < res - 1 then
                !planet.exists_block { id with layer := id.layer + 1 }
              else false
            if layer_air then false else true

/-- `Physics::get_grid_axes`. -/
noncomputable def get_grid_axes (up pos : Vec3) : Vec3 × Vec3 :=
  let abs_p := pos.abs
  let rigid_axis : Vec3 :=
    if abs_p.y ≥ abs_p.x ∧ abs_p.y ≥ abs_p.z then ⟨1, 0, 0⟩
    else if abs_p.x ≥ abs_p.y ∧ abs_p.x ≥ abs_p.z then ⟨0, 1, 0⟩
    else ⟨0, 1, 0⟩
  let right := (up.cross rigid_axis).normalize_or_zero
  let fwd := (up.cross right).normalize_or_zero
  if right.length_squared < 0.001 then
    let r := up.any_orthogonal_vector.normalize
    (r, (up.cross r).normalize)
  else (right, fwd)

/-- `Physics::check_collision`: 4 body heights × (center, ±right, ±fwd). -/
noncomputable def check_collision (pos : Vec3) (planet : PlanetData) : Bool :=
  let up := pos.normalize
  let checks := [pos, pos + (0.9 : ℝ) • up, pos + EYE_HEIGHT • up, pos + PLAYER_HEIGHT • up]
  let axes := get_grid_axes up pos
  let right := PLAYER_RADIUS • axes.1
  let fwd := PLAYER_RADIUS • axes.2
  checks.any fun c =>
    is_solid c planet || is_solid (c + right) planet || is_solid (c - right) planet ||
    is_solid (c + fwd) planet || is_solid (c - fwd) planet

/-- `Physics::solve_movement`.  Sequential mutation of
`(curr_pos, final_horz_vel, final_vel, grounded)` is written as let-bound
stages; the `for step_height in [0.3, 0.6]` loop is unrolled. -/
noncomputable def solve_movement (start_pos velocity : Vec3) (dt : ℝ)
    (planet : PlanetData) (flying : Bool) : Vec3 × Vec3 × Bool :=
  if flying then (start_pos + dt • velocity, velocity, false)
  else
    let up := get_up_vector start_pos
    let vert_speed := velocity.dot up
    let vert_vel := vert_speed • up
    let horz_vel := velocity - vert_vel
    let hres : Vec3 × Vec3 :=
      if horz_vel.length > 0.001 then
        let desired_pos := start_pos + dt • horz_vel
        if !check_collision desired_pos planet then (desired_pos, horz_vel)
        else
          let axes := get_grid_axes up start_pos
          let v_right := (horz_vel.dot axes.1) • axes.1
          let v_fwd := (horz_vel.dot axes.2) • axes.2
          let try_right := start_pos + dt • v_right
          let rOk := !check_collision try_right planet
          let pos1 := if rOk then try_right else start_pos
          let fh1 := if rOk then horz_vel else horz_vel - v_right
          let try_fwd := pos1 + dt • v_fwd
          let fOk := !check_collision try_fwd planet
          let pos2 := if fOk then try_fwd else pos1
          let fh2 := if fOk then fh1 else fh1 - v_fwd
          (pos2, if rOk || fOk then fh2 else Vec3.ZERO)
      else (start_pos, horz_vel)
    let curr_pos0 := hres.1
    let final_horz_vel := hres.2
    let final_vel0 := final_horz_vel + vert_vel
    let ground_check_pos := curr_pos0 - (0.1 : ℝ) • up
    let on_ground := is_solid ground_check_pos planet
    let vres : Vec3 × Vec3 × Bool :=
      if on_ground ∧ vert_speed ≤ 0 then (curr_pos0, final_vel0 - vert_vel, true)
      else
        let new_vert_pos := curr_pos0 + dt • vert_vel
        if !check_collision new_vert_pos planet then (new_vert_pos, final_vel0, false)
        else if vert_speed > 0 then (curr_pos0, final_vel0 - vert_vel, false)
        else (curr_pos0, final_vel0 - vert_vel, true)
    let curr_pos1 := vres.1
    let final_vel1 := vres.2.1
    let grounded := vres.2.2
    let sres : Vec3 × Vec3 :=
      if grounded ∧ final_horz_vel.length < horz_vel.length * 0.5 ∧ horz_vel.length > 0.001 then
        let step1 := curr_pos1 + (0.3 : ℝ) • up
        let fwd1 := step1 + (PLAYER_RADIUS * 1.5) • horz_vel.normalize
        if !check_collision step1 planet ∧ !check_collision fwd1 planet then (step1, horz_vel)
        else
          let step2 := curr_pos1 + (0.6 : ℝ) • up
          let fwd2 := step2 + (PLAYER_RADIUS * 1.5) • horz_vel.normalize
          if !check_collision step2 planet ∧ !check_collision fwd2 planet then (step2, horz_vel)
          else (curr_pos1, final_vel1)
      else (curr_pos1, final_vel1)
    let curr_pos2 := sres.1
    let final_vel2 := sres.2
    let curr_pos3 :=
      if check_collision curr_pos2 planet then curr_pos2 + (4 * dt) • up else curr_pos2
    (curr_pos3, final_vel2, grounded)

end Physics

/-! ## Concrete instances used by witnesses and counterexamples -/

/-- A flat test heightmap: every cell has height 3, resolution 32. -/
def flatTerrain : PlanetTerrain := ⟨fun _ => 3, 32⟩

/-- A fresh world over `flatTerrain` (the overlay `PlanetData::new` creates). -/
def world0 : PlanetData := ⟨fun _ => none, 32, true, flatTerrain⟩

/-- A block well above the core band and off the natural surface. -/
def blockA : BlockId := ⟨0, 10, 0, 0⟩

/-- A reachable world in which `blockA` is already placed. -/
def world1 : PlanetData := world0.add_block blockA

/-- A block inside the protected core band (`layer < 6`). -/
def coreBlock : BlockId := ⟨0, 2, 0, 0⟩

/-- A key used to exercise the fade animator. -/
def animK : AnyKey := AnyKey.Voxel ⟨0, 0, 0⟩

/-- A fresh animator in which `animK` has just been retired at time 0. -/
def anim1 : LodAnimator := LodAnimator.new.retire animK 0

/-- Chunk keys used in the scheduler traces. -/
def ck (i : ℕ) : ChunkKey := ⟨0, i, 0⟩

/-- LOD keys used in the scheduler traces. -/
def lk (i : ℕ) : LodKey := ⟨0, i, 0, 64⟩

/-- A camera-distance function for the traces: distance grows with the
chunk's `u` index. -/
def trDist : ChunkKey → ℚ := fun k => (k.u_idx : ℚ)

/-- Tick 1 of the C8 trace: 8 LOD tiles and 4 chunks required. -/
def c8p1 : TickIn :=
  ⟨[], [lk 0, lk 1, lk 2, lk 3, lk 4, lk 5, lk 6, lk 7],
   {ck 1, ck 2, ck 3, ck 4}, [ck 1, ck 2, ck 3, ck 4], trDist, []⟩

/-- Tick 2: the camera moved; 8 fresh LOD tiles and 4 fresh chunks. -/
def c8p2 : TickIn :=
  ⟨[], [lk 8, lk 9, lk 10, lk 11, lk 12, lk 13, lk 14, lk 15],
   {ck 5, ck 6, ck 7, ck 8}, [ck 5, ck 6, ck 7, ck 8], trDist, []⟩

/-- Tick 3: 4 more fresh chunks. -/
def c8p3 : TickIn :=
  ⟨[], [], {ck 9, ck 10, ck 11, ck 12}, [ck 9, ck 10, ck 11, ck 12], trDist, []⟩

/-- Tick 4: 4 more fresh chunks while exactly one worker result (for
`ck 1`) arrives. -/
def c8p4 : TickIn :=
  ⟨[], [], {ck 13, ck 14, ck 15, ck 16}, [ck 13, ck 14, ck 15, ck 16], trDist,
   [(ck 1, true)]⟩

def c8s1 : RendererSt := (tick c8p1 RendererSt.init).1

def c8s2 : RendererSt := (tick c8p2 c8s1).1

def c8s3 : RendererSt := (tick c8p3 c8s2).1

def c8s4 : RendererSt := (tick c8p4 c8s3).1

/-- Two chunks for the dispatch-order trace: `c9near` is strictly nearer
to the camera than `c9far`. -/
def c9near : ChunkKey := ⟨1, 0, 0⟩

def c9far : ChunkKey := ⟨1, 1, 0⟩

/-- Dispatch-trace tick 1: only `c9near` required. -/
def c9p1 : TickIn := ⟨[], [], {c9near}, [c9near], trDist, []⟩

/-- After tick 1 the job for `c9near` is still in flight. -/
def c9s1 : RendererSt := (tick c9p1 RendererSt.init).1

/-- Dispatch-trace tick 2: both chunks required, no completions. -/
def c9p2 : TickIn := ⟨[], [], {c9near, c9far}, [c9near, c9far], trDist, []⟩

/-! ## Theorems

First the edit-overlay claims (C2–C5), then the fade animator (C7), the
streaming scheduler (C8, C9), terrain determinism (C6), the coordinate
round trip (C1) and the physics flying path (C10). -/

theorem add_block_chunks (pd : PlanetData) (id : BlockId) :
    (pd.add_block id).chunks = fun k =>
      if k = PlanetData.get_chunk_key id then
        some (addMods ((pd.chunks (PlanetData.get_chunk_key id)).getD ChunkMods.new) id)
      else pd.chunks k := rfl

theorem add_block_fields (pd : PlanetData) (id : BlockId) :
    (pd.add_block id).resolution = pd.resolution ∧
    (pd.add_block id).has_core = pd.has_core ∧
    (pd.add_block id).terrain = pd.terrain := ⟨rfl, rfl, rfl⟩

theorem remove_block_chunks (pd : PlanetData) (id : BlockId)
    (h : ¬(pd.has_core ∧ id.layer < 6)) :
    (pd.remove_block id).chunks = fun k =>
      if k = PlanetData.get_chunk_key id then
        some (removeMods ((pd.chunks (PlanetData.get_chunk_key id)).getD ChunkMods.new) id
                pd.resolution)
      else pd.chunks k := by
  unfold PlanetData.remove_block
  rw [if_neg h]

theorem remove_block_fields (pd : PlanetData) (id : BlockId) :
    (pd.remove_block id).resolution = pd.resolution ∧
    (pd.remove_block id).has_core = pd.has_core ∧
    (pd.remove_block id).terrain = pd.terrain := by
  unfold PlanetData.remove_block
  split <;> exact ⟨rfl, rfl, rfl⟩

/-- The mutual-exclusion property transfers to the `getD`-view of a chunk. -/
theorem noBoth_owner (pd : PlanetData) (h : pd.NoBoth) (key : ChunkKey) (id : BlockId) :
    ¬(id ∈ ((pd.chunks key).getD ChunkMods.new).mined ∧
      id ∈ ((pd.chunks key).getD ChunkMods.new).placed) := by
  cases hc : pd.chunks key with
  | none => simp [ChunkMods.new]
  | some mods => simpa using h key mods hc id

theorem noBoth_addMods (mods : ChunkMods) (id id' : BlockId)
    (h : ¬(id' ∈ mods.mined ∧ id' ∈ mods.placed)) :
    ¬(id' ∈ (addMods mods id).mined ∧ id' ∈ (addMods mods id).placed) := by
  unfold Voxanet.addMods
  split_ifs with hm
  · intro ⟨h1, h2⟩
    exact h ⟨Finset.mem_of_mem_erase h1, h2⟩
  · intro ⟨h1, h2⟩
    rcases Finset.mem_insert.1 h2 with rfl | h2
    · exact hm h1
    · exact h ⟨h1, h2⟩

theorem noBoth_removeMods (mods : ChunkMods) (id id' : BlockId) (res : ℕ)
    (h : ¬(id' ∈ mods.mined ∧ id' ∈ mods.placed)) :
    ¬(id' ∈ (removeMods mods id res).mined ∧ id' ∈ (removeMods mods id res).placed) := by
  unfold Voxanet.removeMods
  split_ifs with hp hl
  · intro ⟨h1, h2⟩
    exact h ⟨h1, Finset.mem_of_mem_erase h2⟩
  · intro ⟨h1, h2⟩
    rcases Finset.mem_insert.1 h1 with rfl | h1
    · exact hp h2
    · exact h ⟨h1, h2⟩
  · exact h

theorem noBoth_add_block (pd : PlanetData) (id : BlockId) (h : pd.NoBoth) :
    (pd.add_block id).NoBoth := by
  intro k mods hk id'
  rw [add_block_chunks] at hk
  simp only at hk
  split_ifs at hk with hkey
  · cases hk
    exact noBoth_addMods _ id id' (noBoth_owner pd h _ id')
  · exact h k mods hk id'

theorem noBoth_remove_block (pd : PlanetData) (id : BlockId) (h : pd.NoBoth) :
    (pd.remove_block id).NoBoth := by
  by_cases hcore : pd.has_core ∧ id.layer < 6
  · unfold PlanetData.remove_block
    rw [if_pos hcore]
    exact h
  · intro k mods hk id'
    rw [remove_block_chunks pd id hcore] at hk
    simp only at hk
    split_ifs at hk with hkey
    · cases hk
      exact noBoth_removeMods _ id id' pd.resolution (noBoth_owner pd h _ id')
    · exact h k mods hk id'

/-- C3 invariant, established by induction along reachability. -/
theorem Reachable.noBoth (pd : PlanetData) (h : pd.Reachable) : pd.NoBoth := by
  induction h with
  | init pd h0 => intro k mods hk; rw [h0] at hk; cases hk
  | add pd id _ ih => exact noBoth_add_block pd id ih
  | remove pd id _ ih => exact noBoth_remove_block pd id ih

theorem minedBound_addMods (mods : ChunkMods) (id id' : BlockId) (res : ℕ)
    (h : id' ∈ mods.mined → id'.layer < res) :
    id' ∈ (addMods mods id).mined → id'.layer < res := by
  unfold Voxanet.addMods
  split_ifs with hm
  · intro h1; exact h (Finset.mem_of_mem_erase h1)
  · exact h

theorem minedBound_removeMods (mods : ChunkMods) (id id' : BlockId) (res : ℕ)
    (h : id' ∈ mods.mined → id'.layer < res) :
    id' ∈ (removeMods mods id res).mined → id'.layer < res := by
  unfold Voxanet.removeMods
  split_ifs with hp hl
  · exact h
  · intro h1
    rcases Finset.mem_insert.1 h1 with rfl | h1
    · exact hl
    · exact h h1
  · exact h

theorem minedBound_owner (pd : PlanetData) (h : pd.MinedBound) (key : ChunkKey)
    (id : BlockId) : id ∈ ((pd.chunks key).getD ChunkMods.new).mined → id.layer < pd.resolution := by
  cases hc : pd.chunks key with
  | none => simp [ChunkMods.new]
  | some mods => intro hm; exact h key mods hc id hm

/-- Every mined id in a reachable state has `layer < resolution`. -/
theorem Reachable.minedBound (pd : PlanetData) (h : pd.Reachable) : pd.MinedBound := by
  induction h with
  | init pd h0 => intro k mods hk; rw [h0] at hk; cases hk
  | add pd id _ ih =>
      intro k mods hk id' hm
      rw [add_block_chunks] at hk
      simp only at hk
      split_ifs at hk with hkey
      · cases hk
        exact minedBound_addMods _ id id' pd.resolution (minedBound_owner pd ih _ id') hm
      · exact ih k mods hk id' hm
  | remove pd id _ ih =>
      by_cases hcore : pd.has_core ∧ id.layer < 6
      · unfold PlanetData.remove_block
        rw [if_pos hcore]
        exact ih
      · intro k mods hk id' hm
        have hres : (pd.remove_block id).resolution = pd.resolution :=
          (remove_block_fields pd id).1
        rw [hres]
        rw [remove_block_chunks pd id hcore] at hk
        simp only at hk
        split_ifs at hk with hkey
        · cases hk
          exact minedBound_removeMods _ id id' pd.resolution (minedBound_owner pd ih _ id') hm
        · exact ih k mods hk id' hm

/-- Two worlds with the same terrain and the same owning-chunk entry agree
on `exists`. -/
theorem exists_block_congr (pd1 pd2 : PlanetData) (id : BlockId)
    (ht : pd1.terrain = pd2.terrain)
    (hc : pd1.chunks (PlanetData.get_chunk_key id) = pd2.chunks (PlanetData.get_chunk_key id)) :
    pd1.exists_block id = pd2.exists_block id := by
  unfold PlanetData.exists_block
  rw [ht, hc]

/-- An explicitly materialised empty chunk entry is observationally the
same as an absent one. -/
theorem exists_block_empty_entry (pd : PlanetData) (id : BlockId)
    (h : pd.chunks (PlanetData.get_chunk_key id) = some ChunkMods.new) :
    pd.exists_block id =
      decide (id.layer ≤ pd.terrain.get_height id.face id.u id.v) := by
  unfold PlanetData.exists_block
  rw [h]
  simp [ChunkMods.new]

theorem exists_block_none (pd : PlanetData) (id : BlockId)
    (h : pd.chunks (PlanetData.get_chunk_key id) = none) :
    pd.exists_block id =
      decide (id.layer ≤ pd.terrain.get_height id.face id.u id.v) := by
  unfold PlanetData.exists_block
  rw [h]

/-- C2: `exists(id)` consults the owning chunk's `placed` set first, then
its `mined` set, and otherwise compares the layer against the natural
terrain height. -/
theorem exists_block_spec (pd : PlanetData) (id : BlockId) :
    pd.exists_block id =
      if id ∈ (pd.owner_mods id).placed then true
      else if id ∈ (pd.owner_mods id).mined then false
      else decide (id.layer ≤ pd.terrain.get_height id.face id.u id.v) := by
  unfold PlanetData.exists_block PlanetData.owner_mods
  cases hc : pd.chunks (PlanetData.get_chunk_key id) with
  | none => simp [ChunkMods.new]
  | some mods => rfl

/-- C3: in every reachable world state the `mined` and `placed` sets of
every chunk are disjoint. -/
theorem mined_placed_mutually_exclusive (pd : PlanetData) (h : pd.Reachable)
    (k : ChunkKey) (mods : ChunkMods) (hk : pd.chunks k = some mods) (id : BlockId) :
    ¬(id ∈ mods.mined ∧ id ∈ mods.placed) :=
  Reachable.noBoth pd h k mods hk id

/-- Witness for C3 at a concrete reachable state. -/
theorem mined_placed_mutually_exclusive_witness :
    ¬(blockA ∈ (ChunkMods.mk ∅ {blockA}).mined ∧ blockA ∈ (ChunkMods.mk ∅ {blockA}).placed) :=
  mined_placed_mutually_exclusive world1
    (PlanetData.Reachable.add world0 blockA (PlanetData.Reachable.init world0 rfl))
    ⟨0, 0, 0⟩ (ChunkMods.mk ∅ {blockA}) (by decide) blockA

/-- C5: with the core present, `remove_block` on a core-band block
(`layer < 6`) returns with the whole state unchanged. -/
theorem remove_block_core_noop (pd : PlanetData) (id : BlockId)
    (hc : pd.has_core = true) (hl : id.layer < 6) :
    pd.remove_block id = pd := by
  unfold PlanetData.remove_block
  rw [if_pos ⟨hc, hl⟩]

/-- Witness for C5. -/
theorem remove_block_core_noop_witness : world0.remove_block coreBlock = world0 :=
  remove_block_core_noop world0 coreBlock rfl (by decide)

/-- C4 (amended): on a reachable state, for an id above the core band that
is *not already placed*, `add_block` then `remove_block` restores the
observable world (`exists` at every id). -/
theorem add_remove_restores (pd : PlanetData) (id : BlockId)
    (hreach : pd.Reachable) (hl : 6 ≤ id.layer)
    (hh : id.layer ≠ pd.terrain.get_height id.face id.u id.v)
    (hp : id ∉ (pd.owner_mods id).placed) (id' : BlockId) :
    ((pd.add_block id).remove_block id).exists_block id' = pd.exists_block id' := by
  have hcore : ¬((pd.add_block id).has_core ∧ id.layer < 6) := by
    intro ⟨_, h6⟩; omega
  have hmb := minedBound_owner pd (Reachable.minedBound pd hreach)
    (PlanetData.get_chunk_key id) id
  -- un-doing the owning chunk's mods
  have hkeyfact : removeMods (addMods (pd.owner_mods id) id) id pd.resolution
      = pd.owner_mods id := by
    by_cases hm : id ∈ (pd.owner_mods id).mined
    · have h1 : addMods (pd.owner_mods id) id =
          { pd.owner_mods id with mined := (pd.owner_mods id).mined.erase id } := by
        unfold Voxanet.addMods
        rw [if_pos hm]
      rw [h1]
      unfold Voxanet.removeMods
      have h2 : id ∉ ({ pd.owner_mods id with
          mined := (pd.owner_mods id).mined.erase id } : ChunkMods).placed := hp
      rw [if_neg h2, if_pos (hmb hm)]
      show ChunkMods.mk (insert id ((pd.owner_mods id).mined.erase id)) _ = _
      rw [Finset.insert_erase hm]
    · have h1 : addMods (pd.owner_mods id) id =
          { pd.owner_mods id with placed := insert id (pd.owner_mods id).placed } := by
        unfold Voxanet.addMods
        rw [if_neg hm]
      rw [h1]
      unfold Voxanet.removeMods
      have h2 : id ∈ ({ pd.owner_mods id with
          placed := insert id (pd.owner_mods id).placed } : ChunkMods).placed :=
        Finset.mem_insert_self id _
      rw [if_pos h2]
      show ChunkMods.mk _ ((insert id (pd.owner_mods id).placed).erase id) = _
      rw [Finset.erase_insert hp]
  -- the final chunk map agrees with the original except for a possibly
  -- materialised (but identical-content) owning entry
  have hchunks : ∀ k, ((pd.add_block id).remove_block id).chunks k =
      if k = PlanetData.get_chunk_key id then some (pd.owner_mods id) else pd.chunks k := by
    intro k
    rw [remove_block_chunks _ id hcore]
    simp only [add_block_chunks]
    by_cases hk : k = PlanetData.get_chunk_key id
    · rw [if_pos hk, if_pos hk]
      simp only [if_true, Option.getD_some]
      show some (removeMods (addMods (pd.owner_mods id) id) id pd.resolution) = _
      rw [hkeyfact]
    · rw [if_neg hk, if_neg hk, if_neg hk]
  have hterr : ((pd.add_block id).remove_block id).terrain = pd.terrain :=
    (remove_block_fields (pd.add_block id) id).2.2
  by_cases hk' : PlanetData.get_chunk_key id' = PlanetData.get_chunk_key id
  · cases hc2 : pd.chunks (PlanetData.get_chunk_key id) with
    | some m =>
        refine exists_block_congr _ _ _ hterr ?_
        rw [hchunks, if_pos hk', hk', hc2]
        unfold PlanetData.owner_mods
        rw [hc2, Option.getD_some]
    | none =>
        have hmods0 : pd.owner_mods id = ChunkMods.new := by
          unfold PlanetData.owner_mods
          rw [hc2]
          rfl
        rw [exists_block_empty_entry _ id' (by rw [hchunks, if_pos hk', hmods0]),
            exists_block_none pd id' (by rw [hk', hc2]), hterr]
  · exact exists_block_congr _ _ _ hterr (by rw [hchunks, if_neg hk'])

/-- Witness for C4 (amended) on a fresh world. -/
theorem add_remove_restores_witness :
    ((world0.add_block blockA).remove_block blockA).exists_block blockA =
      world0.exists_block blockA :=
  add_remove_restores world0 blockA (PlanetData.Reachable.init world0 rfl)
    (by decide) (by decide) (by decide) blockA

/-- Counterexample to C4 as stated: on the reachable state `world1`, where
`blockA` (layer 10 ≥ 6, natural height 3 ≠ 10) is already placed,
`add_block` then `remove_block` changes the observable world: `exists`
flips from `true` to `false`. -/
theorem add_remove_restores_cex :
    world1.Reachable ∧ 6 ≤ blockA.layer ∧
    blockA.layer ≠ world1.terrain.get_height blockA.face blockA.u blockA.v ∧
    ((world1.add_block blockA).remove_block blockA).exists_block blockA ≠
      world1.exists_block blockA := by
  refine ⟨PlanetData.Reachable.add world0 blockA (PlanetData.Reachable.init world0 rfl),
    ?_, ?_, ?_⟩ <;> decide

/-! ### lod_animation.rs claims -/

theorem smoothstep_eq (t : ℚ) :
    LodAnimator.smoothstep t =
      max 0 (min t 1) * max 0 (min t 1) * (3 - 2 * max 0 (min t 1)) := rfl

theorem smoothstep_nonneg (t : ℚ) : 0 ≤ LodAnimator.smoothstep t := by
  rw [smoothstep_eq]
  have h0 : 0 ≤ max 0 (min t 1) := le_max_left _ _
  have h1 : max 0 (min t 1) ≤ 1 := max_le (by norm_num) (min_le_right _ _)
  nlinarith

theorem smoothstep_le_one (t : ℚ) : LodAnimator.smoothstep t ≤ 1 := by
  rw [smoothstep_eq]
  have h0 : 0 ≤ max 0 (min t 1) := le_max_left _ _
  have h1 : max 0 (min t 1) ≤ 1 := max_le (by norm_num) (min_le_right _ _)
  nlinarith [sq_nonneg (1 - max 0 (min t 1))]

theorem smoothstep_mono {t1 t2 : ℚ} (h : t1 ≤ t2) :
    LodAnimator.smoothstep t1 ≤ LodAnimator.smoothstep t2 := by
  rw [smoothstep_eq, smoothstep_eq]
  set a := max 0 (min t1 1) with ha
  set b := max 0 (min t2 1) with hb
  have hab : a ≤ b := max_le_max le_rfl (min_le_min h le_rfl)
  have ha0 : 0 ≤ a := le_max_left _ _
  have ha1 : a ≤ 1 := max_le (by norm_num) (min_le_right _ _)
  have hb0 : 0 ≤ b := le_max_left _ _
  have hb1 : b ≤ 1 := max_le (by norm_num) (min_le_right _ _)
  nlinarith [mul_nonneg (sub_nonneg.2 hab) (mul_nonneg ha0 (sub_nonneg.2 ha1)),
    mul_nonneg (sub_nonneg.2 hab) (mul_nonneg hb0 (sub_nonneg.2 hb1)),
    mul_nonneg (sub_nonneg.2 hab) (mul_nonneg ha0 (sub_nonneg.2 hb1)),
    mul_nonneg (sub_nonneg.2 hab) (mul_nonneg hb0 (sub_nonneg.2 ha1))]

/-- C7: chunk/tile opacity is non-decreasing in elapsed time while a key is
spawning, the alpha reported for a retiring key is non-increasing in
elapsed time, and both always lie within `[0, 1]`. -/
theorem opacity_monotone_bounded (a : LodAnimator) (key : AnyKey) (t1 t2 : ℚ)
    (h12 : t1 ≤ t2) :
    (0 ≤ a.get_opacity key t1 ∧ a.get_opacity key t1 ≤ 1) ∧
    (0 < a.fade_duration → a.get_opacity key t1 ≤ a.get_opacity key t2) ∧
    (∀ st, a.dying_chunks key = some st → 0 < st.duration →
      ∀ b1 b2, a.update_dying_alpha key t1 = some b1 →
        a.update_dying_alpha key t2 = some b2 →
        b2 ≤ b1 ∧ 0 ≤ b1 ∧ b1 ≤ 1) := by
  refine ⟨?_, ?_, ?_⟩
  · unfold LodAnimator.get_opacity
    cases a.spawning_chunks key with
    | none => norm_num
    | some s => exact ⟨smoothstep_nonneg _, smoothstep_le_one _⟩
  · intro hd
    unfold LodAnimator.get_opacity
    cases a.spawning_chunks key with
    | none => exact le_refl 1
    | some s =>
        exact smoothstep_mono ((div_le_div_iff_of_pos_right hd).2 (by linarith))
  · intro st hst hd b1 b2 h1 h2
    have he : ∀ t, a.update_dying_alpha key t =
        if 1 ≤ (t - st.start_time) / st.duration then none
        else some (1 - LodAnimator.smoothstep ((t - st.start_time) / st.duration)) := by
      intro t
      unfold LodAnimator.update_dying_alpha
      rw [hst]
    rw [he t1] at h1
    rw [he t2] at h2
    by_cases hge1 : 1 ≤ (t1 - st.start_time) / st.duration
    · rw [if_pos hge1] at h1
      cases h1
    · rw [if_neg hge1] at h1
      by_cases hge2 : 1 ≤ (t2 - st.start_time) / st.duration
      · rw [if_pos hge2] at h2
        cases h2
      · rw [if_neg hge2] at h2
        injection h1 with h1
        injection h2 with h2
        subst h1
        subst h2
        refine ⟨?_, ?_, ?_⟩
        · have hmono := smoothstep_mono
            ((div_le_div_iff_of_pos_right hd).2
              (by linarith : t1 - st.start_time ≤ t2 - st.start_time))
          linarith
        · linarith [smoothstep_le_one ((t1 - st.start_time) / st.duration)]
        · linarith [smoothstep_nonneg ((t1 - st.start_time) / st.duration)]

/-- Witness for C7 on the concrete animator `anim1`: the key retired at
time 0 reports alpha 1 at time 0 and alpha 1/2 at time 1. -/
theorem opacity_monotone_bounded_witness :
    (1 : ℚ) / 2 ≤ 1 ∧ (0 : ℚ) ≤ 1 ∧ (1 : ℚ) ≤ 1 := by
  have hd : anim1.dying_chunks animK = some ⟨0, 1, 0, 2⟩ := by
    simp [anim1, LodAnimator.retire, LodAnimator.new]
  have h1 : anim1.update_dying_alpha animK 0 = some 1 := by
    unfold LodAnimator.update_dying_alpha
    rw [hd]
    dsimp only
    rw [if_neg (by norm_num)]
    norm_num [smoothstep_eq]
  have h2 : anim1.update_dying_alpha animK 1 = some (1 / 2) := by
    unfold LodAnimator.update_dying_alpha
    rw [hd]
    dsimp only
    rw [if_neg (by norm_num)]
    rw [smoothstep_eq]
    norm_num
  exact (opacity_monotone_bounded anim1 animK 0 1 (by norm_num)).2.2
    ⟨0, 1, 0, 2⟩ hd (by norm_num) 1 (1 / 2) h1 h2

/-! ### renderer.rs scheduler claims -/

theorem drainLods_pres (l : List LodKey) : ∀ (c : ℕ) (s : RendererSt),
    (drainLods l c s).pending_chunks = s.pending_chunks ∧
    (drainLods l c s).chunks = s.chunks ∧
    (drainLods l c s).load_queue = s.load_queue := by
  induction l with
  | nil => intro c s; exact ⟨rfl, rfl, rfl⟩
  | cons k rest ih =>
      intro c s
      unfold drainLods
      dsimp only
      split_ifs with h
      · exact ⟨rfl, rfl, rfl⟩
      · exact ih (c + 1) _

theorem spawnLods_pres (l : List LodKey) : ∀ (c : ℕ) (s : RendererSt),
    (spawnLods l c s).1.pending_chunks = s.pending_chunks ∧
    (spawnLods l c s).1.chunks = s.chunks ∧
    (spawnLods l c s).1.load_queue = s.load_queue := by
  induction l with
  | nil => intro c s; exact ⟨rfl, rfl, rfl⟩
  | cons k rest ih =>
      intro c s
      unfold spawnLods
      dsimp only
      split_ifs with h1 h2
      · exact ⟨rfl, rfl, rfl⟩
      · exact ih (c + 1) _
      · exact ih c s

/-- At most `8 - c` further LOD jobs are admitted when `c` have already
been counted. -/
theorem spawnLods_len (l : List LodKey) : ∀ (c : ℕ) (s : RendererSt),
    (spawnLods l c s).2.length ≤ 8 - c := by
  induction l with
  | nil => intro c s; simp [spawnLods]
  | cons k rest ih =>
      intro c s
      unfold spawnLods
      dsimp only
      split_ifs with h1 h2
      · simp
      · have := ih (c + 1) { s with pending_lods := insert k s.pending_lods }
        simp only [List.length_cons]
        omega
      · exact ih c s

theorem pushMissing_pres (l : List ChunkKey) : ∀ (s : RendererSt),
    (pushMissing l s).pending_chunks = s.pending_chunks ∧
    (pushMissing l s).chunks = s.chunks := by
  induction l with
  | nil => intro s; exact ⟨rfl, rfl⟩
  | cons k rest ih =>
      intro s
      unfold pushMissing
      dsimp only
      split_ifs with h
      · exact ih _
      · exact ih s

theorem drainMesh_pres (l : List (ChunkKey × Bool)) : ∀ (s : RendererSt) (b : ℤ),
    (drainMesh l s b).1.load_queue = s.load_queue ∧
    (drainMesh l s b).1.pending_chunks.card ≤ s.pending_chunks.card := by
  induction l with
  | nil => intro s b; exact ⟨rfl, le_refl _⟩
  | cons kb rest ih =>
      intro s b
      obtain ⟨k, nonempty⟩ := kb
      unfold drainMesh
      dsimp only
      split_ifs with h1 h2 h3 <;>
        first
          | exact ⟨rfl, Finset.card_erase_le⟩
          | exact ⟨(ih _ _).1, le_trans (ih _ _).2 Finset.card_erase_le⟩

theorem spawnLoop_len : ∀ (n : ℕ) (s : RendererSt), (spawnLoop n s).2.length ≤ n := by
  intro n
  induction n with
  | zero => intro s; simp [spawnLoop]
  | succ n ih =>
      intro s
      unfold spawnLoop
      split
      · simp
      · dsimp only
        split_ifs with h
        · exact le_trans (ih _) (Nat.le_succ n)
        · simp only [List.length_cons]
          exact Nat.succ_le_succ (ih _)

theorem spawnLoop_card : ∀ (n : ℕ) (s : RendererSt),
    (spawnLoop n s).1.pending_chunks.card ≤ s.pending_chunks.card + n := by
  intro n
  induction n with
  | zero => intro s; simp [spawnLoop]
  | succ n ih =>
      intro s
      unfold spawnLoop
      split
      · simp
      · rename_i k heq
        dsimp only
        split_ifs with h
        · refine le_trans (ih _) ?_
          dsimp only
          omega
        · refine le_trans (ih _) ?_
          dsimp only
          have hci := Finset.card_insert_le k s.pending_chunks
          omega

theorem drainLods_pending (l : List LodKey) (c : ℕ) (s : RendererSt) :
    (drainLods l c s).pending_chunks = s.pending_chunks := (drainLods_pres l c s).1

theorem spawnLods_pending (l : List LodKey) (c : ℕ) (s : RendererSt) :
    (spawnLods l c s).1.pending_chunks = s.pending_chunks := (spawnLods_pres l c s).1

theorem pushMissing_pending (l : List ChunkKey) (s : RendererSt) :
    (pushMissing l s).pending_chunks = s.pending_chunks := (pushMissing_pres l s).1

theorem rebuildPhase_pending (p : TickIn) (s : RendererSt) :
    (rebuildPhase p s).1.pending_chunks = s.pending_chunks := by
  unfold rebuildPhase
  simp only [pushMissing_pending, spawnLods_pending, drainLods_pending]

theorem mem_insertDesc (d : ChunkKey → ℚ) (k a : ChunkKey) :
    ∀ l, a ∈ insertDesc d k l ↔ a = k ∨ a ∈ l := by
  intro l
  induction l with
  | nil => simp [insertDesc]
  | cons b t ih =>
      unfold insertDesc
      split_ifs with h
      · simp [List.mem_cons]
      · simp [List.mem_cons, ih]
        tauto

theorem pairwise_insertDesc (d : ChunkKey → ℚ) (k : ChunkKey) :
    ∀ l, l.Pairwise (fun a b => d b ≤ d a) →
      (insertDesc d k l).Pairwise (fun a b => d b ≤ d a) := by
  intro l
  induction l with
  | nil => intro _; simp [insertDesc]
  | cons b t ih =>
      intro hp
      rw [List.pairwise_cons] at hp
      obtain ⟨hb, ht⟩ := hp
      unfold insertDesc
      split_ifs with h
      · refine List.Pairwise.cons ?_ (List.Pairwise.cons hb ht)
        intro x hx
        rcases List.mem_cons.1 hx with rfl | hx
        · exact le_of_lt h
        · exact le_trans (hb x hx) (le_of_lt h)
      · refine List.Pairwise.cons ?_ (ih ht)
        intro x hx
        rcases (mem_insertDesc d k x t).1 hx with rfl | hx
        · exact not_lt.1 h
        · exact hb x hx

theorem sortDesc_pairwise (d : ChunkKey → ℚ) :
    ∀ l, (sortDesc d l).Pairwise (fun a b => d b ≤ d a) := by
  intro l
  induction l with
  | nil => simp [sortDesc]
  | cons a t ih => exact pairwise_insertDesc d a _ ih

/-- The queue produced by the rebuild phase is in descending-distance
order. -/
theorem rebuildPhase_queue_pairwise (p : TickIn) (s : RendererSt) :
    (rebuildPhase p s).1.load_queue.Pairwise (fun a b => p.dist b ≤ p.dist a) := by
  show (sortDesc p.dist _).Pairwise _
  exact sortDesc_pairwise p.dist _

theorem getLast?_concat_form {α : Type} : ∀ (l : List α) (e : α),
    l.getLast? = some e → ∃ l', l = l' ++ [e] := by
  intro l
  induction l with
  | nil => intro e h; cases h
  | cons a t ih =>
      intro e h
      cases t with
      | nil =>
          simp [List.getLast?] at h
          exact ⟨[], by simp [h]⟩
      | cons b t2 =>
          rw [List.getLast?_cons_cons] at h
          obtain ⟨l', hl⟩ := ih e h
          exact ⟨a :: l', by simp [hl]⟩

/-- If the queue is in descending-distance order, the first chunk the
dispatch loop actually spawns is nearest among all queued chunks that are
neither resident nor pending. -/
theorem spawnLoop_first_min (d : ChunkKey → ℚ) :
    ∀ (n : ℕ) (s : RendererSt) (k : ChunkKey) (ks : List ChunkKey),
      s.load_queue.Pairwise (fun a b => d b ≤ d a) →
      (spawnLoop n s).2 = k :: ks →
      ∀ k' ∈ s.load_queue, k' ∉ s.chunks → k' ∉ s.pending_chunks → d k ≤ d k' := by
  intro n
  induction n with
  | zero => intro s k ks _ h; cases h
  | succ n ih =>
      intro s k ks hpw hsp k' hk' hc hp
      unfold spawnLoop at hsp
      cases hq : s.load_queue.getLast? with
      | none => rw [hq] at hsp; cases hsp
      | some e =>
          rw [hq] at hsp
          dsimp only at hsp
          obtain ⟨l, hl⟩ := getLast?_concat_form s.load_queue e hq
          split_ifs at hsp with helig
          · -- the tail key was skipped
            have hk'2 : k' ∈ s.load_queue.dropLast ∨ k' = e := by
              rw [hl, List.dropLast_concat]
              rw [hl] at hk'
              rcases List.mem_append.1 hk' with h | h
              · exact Or.inl h
              · simp only [List.mem_singleton] at h
                exact Or.inr h
            rcases hk'2 with h2 | rfl
            · exact ih { s with load_queue := s.load_queue.dropLast } k ks
                (List.Pairwise.sublist (List.dropLast_sublist _) hpw) hsp k' h2 hc hp
            · rcases helig with he | he
              · exact absurd he hc
              · exact absurd he hp
          · -- the tail key was spawned: it is `k`
            dsimp only at hsp
            obtain ⟨rfl, -⟩ : e = k ∧ _ := List.cons.inj hsp
            rw [hl] at hk' hpw
            rcases List.mem_append.1 hk' with h | h
            · rcases List.pairwise_append.1 hpw with ⟨-, -, hcross⟩
              exact hcross k' h e (List.mem_singleton.2 rfl)
            · simp only [List.mem_singleton] at h
              rw [h]

/-- C8 (amended): every streaming tick admits at most 8 new LOD jobs and
dispatches at most 4 new chunk jobs, and in every reachable scheduler state
at most 15 chunk generation jobs are simultaneously in flight. -/
theorem scheduler_bounds :
    (∀ (p : TickIn) (s : RendererSt),
        (tick p s).2.1.length ≤ 8 ∧ (tick p s).2.2.length ≤ 4) ∧
    (∀ s : RendererSt, s.Reachable → s.pending_chunks.card ≤ 15) := by
  constructor
  · intro p s
    constructor
    · show (spawnLods p.reqLods 0 _).2.length ≤ 8
      simpa using spawnLods_len p.reqLods 0 _
    · show (process_load_queue p.chunkDone (rebuildPhase p s).1).2.length ≤ 4
      unfold process_load_queue
      dsimp only
      split_ifs <;> first | simp | exact spawnLoop_len 4 _
  · intro s hs
    induction hs with
    | init => simp [RendererSt.init]
    | step p s hr ih =>
        show (process_load_queue p.chunkDone (rebuildPhase p s).1).1.pending_chunks.card ≤ 15
        have hdrain := (drainMesh_pres p.chunkDone (rebuildPhase p s).1 4).2
        rw [rebuildPhase_pending p s] at hdrain
        have hsl := spawnLoop_card 4 (drainMesh p.chunkDone (rebuildPhase p s).1 4).1
        unfold process_load_queue
        dsimp only
        split_ifs with h1 h2 h3 <;> (try dsimp only) <;> omega

/-- Witness for C8 (amended) at the initial state. -/
theorem scheduler_bounds_witness :
    ((tick c8p1 RendererSt.init).2.1.length ≤ 8 ∧
      (tick c8p1 RendererSt.init).2.2.length ≤ 4) ∧
    RendererSt.init.pending_chunks.card ≤ 15 :=
  ⟨scheduler_bounds.1 c8p1 RendererSt.init,
   scheduler_bounds.2 RendererSt.init RendererSt.Reachable.init⟩

set_option maxRecDepth 100000 in
/-- Counterexample to C8 as stated: after four streaming ticks (camera
moving, one worker completion) the scheduler holds 16 in-flight LOD jobs
(> 8) and 15 in-flight chunk jobs (> 12). -/
theorem scheduler_bounds_cex :
    c8s4.Reachable ∧ 8 < c8s4.pending_lods.card ∧ 12 < c8s4.pending_chunks.card := by
  refine ⟨?_, by decide, by decide⟩
  exact RendererSt.Reachable.step c8p4 c8s3
    (RendererSt.Reachable.step c8p3 c8s2
      (RendererSt.Reachable.step c8p2 c8s1
        (RendererSt.Reachable.step c8p1 RendererSt.init RendererSt.Reachable.init)))

/-- C9 (amended): on every streaming tick, the first chunk job dispatched
from the rebuilt queue is the nearest-to-camera chunk among all queued
chunks that are neither resident nor already in flight (after this tick's
result drain). -/
theorem dispatch_nearest_eligible (p : TickIn) (s : RendererSt) (k : ChunkKey)
    (ks : List ChunkKey)
    (hdisp : (process_load_queue p.chunkDone (rebuildPhase p s).1).2 = k :: ks) :
    ∀ k' ∈ (rebuildPhase p s).1.load_queue,
      k' ∉ (drainMesh p.chunkDone (rebuildPhase p s).1 4).1.chunks →
      k' ∉ (drainMesh p.chunkDone (rebuildPhase p s).1 4).1.pending_chunks →
      p.dist k ≤ p.dist k' := by
  intro k' hk' hc hp
  unfold process_load_queue at hdisp
  dsimp only at hdisp
  split_ifs at hdisp with h1 h2 h3
  all_goals first
    | exact List.noConfusion hdisp
    | (refine spawnLoop_first_min p.dist 4 _ k ks ?_ hdisp k' ?_ hc hp <;>
        rw [(drainMesh_pres p.chunkDone (rebuildPhase p s).1 4).1] <;>
        first
          | exact rebuildPhase_queue_pairwise p s
          | exact hk')

/-- Witness for C9 (amended): on a fresh state with both trace chunks
required, the dispatch loop spawns `c9near` first, and its distance is
minimal. -/
theorem dispatch_nearest_eligible_witness :
    c9p2.dist c9near ≤ c9p2.dist c9far :=
  dispatch_nearest_eligible c9p2 RendererSt.init c9near [c9far] (by decide) c9far
    (by decide) (by decide) (by decide)

/-- Counterexample to C9 as stated: on the reachable state `c9s1` (where
the job for `c9near` is still in flight), the rebuilt queue contains
`c9near`, which is strictly nearer than `c9far`, yet the tick dispatches
`c9far` first. -/
theorem dispatch_nearest_cex :
    c9s1.Reachable ∧
    c9near ∈ (rebuildPhase c9p2 c9s1).1.load_queue ∧
    c9p2.dist c9near < c9p2.dist c9far ∧
    (process_load_queue c9p2.chunkDone (rebuildPhase c9p2 c9s1).1).2 = [c9far] := by
  refine ⟨RendererSt.Reachable.step c9p1 RendererSt.init RendererSt.Reachable.init,
    by decide, by decide, by decide⟩

/-! ### noise.rs claim -/

/-- C6: two heightmap generations with the same (fixed) seed and the same
resolution agree on every stored height.  The whole generation pipeline is
embedded as a pure function of the seed and the resolution, with no other
inputs — this is exactly the source situation (seeded LCG shuffle, pure
arithmetic), so determinism is equality of two applications. -/
theorem heightmaps_bit_identical (res : ℕ) (t1 t2 : PlanetTerrain)
    (h1 : t1 = PlanetTerrain.new res) (h2 : t2 = PlanetTerrain.new res) :
    ∀ face u v, t1.get_height face u v = t2.get_height face u v := by
  intro face u v
  rw [h1, h2]

/-- Witness for C6 at resolution 8. -/
theorem heightmaps_bit_identical_witness :
    (PlanetTerrain.new 8).get_height 0 0 0 = (PlanetTerrain.new 8).get_height 0 0 0 :=
  heightmaps_bit_identical 8 (PlanetTerrain.new 8) (PlanetTerrain.new 8) rfl rfl 0 0 0

/-! ### physics.rs claim -/

/-- C10: with the flying flag set, `solve_movement` applies the full step,
keeps the velocity, and reports not grounded, with no collision checks. -/
theorem solve_movement_flying (start_pos velocity : Vec3) (dt : ℝ) (planet : PlanetData) :
    Physics.solve_movement start_pos velocity dt planet true =
      (start_pos + dt • velocity, velocity, false) := by
  unfold Physics.solve_movement
  rw [if_pos rfl]

/-! ### gen.rs: the coordinate round trip (C1)

All statements are about the exact-real embedding; the spec's "within
fractional tolerance" holds with fractional offsets exactly 0. -/

theorem abs_le_abs_of_sq (u w : ℝ) (h : u ^ 2 ≤ w ^ 2) : |u| ≤ |w| := by
  rw [← Real.sqrt_sq_eq_abs u, ← Real.sqrt_sq_eq_abs w]
  exact Real.sqrt_le_sqrt h

theorem abs_lt_abs_of_sq (u w : ℝ) (h : u ^ 2 < w ^ 2) : |u| < |w| := by
  rw [← Real.sqrt_sq_eq_abs u, ← Real.sqrt_sq_eq_abs w]
  exact Real.sqrt_lt_sqrt (sq_nonneg u) h

theorem sq_mul_sqrt (a r : ℝ) (hr : 0 ≤ r) : (a * Real.sqrt r) ^ 2 = a ^ 2 * r := by
  rw [mul_pow, Real.sq_sqrt hr]

/-- The per-coordinate inversion block recovers `a` from `a · t` whenever
the prepared argument equals `2a²`, `t > 0` and `a² ≤ 1`. -/
theorem recover_coord_eq (a t arg : ℝ) (ht : 0 < t) (ha : a ^ 2 ≤ 1)
    (harg : arg = 2 * a ^ 2) : recover_coord (a * t) arg = a := by
  subst harg
  unfold recover_coord
  dsimp only
  have habs1 : |a| ≤ 1 := by
    rw [show (1:ℝ) = |(1:ℝ)| from (abs_one).symm]
    exact abs_le_abs_of_sq a 1 (by nlinarith)
  have hsq : Real.sqrt (2 * a ^ 2) * INVERSE_SQRT_2 = |a| := by
    rw [Real.sqrt_mul (by norm_num : (0:ℝ) ≤ 2), Real.sqrt_sq_eq_abs]
    unfold INVERSE_SQRT_2
    rw [mul_comm (Real.sqrt 2) |a|, mul_assoc,
        mul_inv_cancel₀ (Real.sqrt_ne_zero'.2 (by norm_num : (0:ℝ) < 2)), mul_one]
  by_cases ha0 : a = 0
  · subst ha0
    rw [if_pos (by ring : (0:ℝ) * t = 0)]
    norm_num
  · have hne : a * t ≠ 0 := mul_ne_zero ha0 (ne_of_gt ht)
    rw [if_neg hne, hsq, if_neg (not_lt.2 habs1)]
    by_cases haneg : a < 0
    · rw [if_pos (mul_neg_of_neg_of_pos haneg ht), abs_of_neg haneg]
      ring
    · have hpos : 0 < a := lt_of_le_of_ne (not_lt.1 haneg) (Ne.symm ha0)
      rw [if_neg (not_lt.2 (le_of_lt (mul_pos hpos ht))), abs_of_pos hpos]

/-- The shared quadratic inversion block of `cubize_point` is a two-sided
inverse of the forward smoothing map on each face: feeding it the two
non-dominant sphere components recovers the two cube coordinates. -/
theorem quad_pair_recover (a b : ℝ) (ha : a ^ 2 ≤ 1) (hb : b ^ 2 ≤ 1) :
    quad_pair (a * Real.sqrt ((3 - b ^ 2) / 6)) (b * Real.sqrt ((3 - a ^ 2) / 6))
      = (a, b) := by
  have hta : 0 < Real.sqrt ((3 - b ^ 2) / 6) := Real.sqrt_pos.2 (by nlinarith)
  have htb : 0 < Real.sqrt ((3 - a ^ 2) / 6) := Real.sqrt_pos.2 (by nlinarith)
  have hta2 : Real.sqrt ((3 - b ^ 2) / 6) ^ 2 = (3 - b ^ 2) / 6 :=
    Real.sq_sqrt (by nlinarith)
  have htb2 : Real.sqrt ((3 - a ^ 2) / 6) ^ 2 = (3 - a ^ 2) / 6 :=
    Real.sq_sqrt (by nlinarith)
  set ta := Real.sqrt ((3 - b ^ 2) / 6) with hta_def
  set tb := Real.sqrt ((3 - a ^ 2) / 6) with htb_def
  unfold quad_pair
  dsimp only
  have e1 : a * ta * (a * ta) * 2 = a ^ 2 * (3 - b ^ 2) / 3 := by
    have h : a * ta * (a * ta) * 2 = a ^ 2 * ta ^ 2 * 2 := by ring
    rw [h, hta2]
    ring
  have e2 : b * tb * (b * tb) * 2 = b ^ 2 * (3 - a ^ 2) / 3 := by
    have h : b * tb * (b * tb) * 2 = b ^ 2 * tb ^ 2 * 2 := by ring
    rw [h, htb2]
    ring
  simp only [e1, e2]
  have hd : (-(a ^ 2 * (3 - b ^ 2) / 3) + b ^ 2 * (3 - a ^ 2) / 3 - 3) *
      (-(a ^ 2 * (3 - b ^ 2) / 3) + b ^ 2 * (3 - a ^ 2) / 3 - 3) -
      12 * (a ^ 2 * (3 - b ^ 2) / 3) = (3 - a ^ 2 - b ^ 2) ^ 2 := by ring
  rw [hd, Real.sqrt_sq (by nlinarith : (0:ℝ) ≤ 3 - a ^ 2 - b ^ 2)]
  rw [recover_coord_eq a ta _ hta ha (by ring), recover_coord_eq b tb _ htb hb (by ring)]

/-- Closed component form of `cube_to_sphere` when the dominant axis is
`y` (`σ² = 1`). -/
theorem cube_to_sphere_y (a b σ : ℝ) (hσσ : σ * σ = 1) :
    cube_to_sphere a σ b =
      ⟨a * Real.sqrt ((3 - b ^ 2) / 6),
       σ * Real.sqrt ((6 - 3 * a ^ 2 - 3 * b ^ 2 + 2 * a ^ 2 * b ^ 2) / 6),
       b * Real.sqrt ((3 - a ^ 2) / 6)⟩ := by
  unfold cube_to_sphere
  dsimp only
  rw [show (1 - σ * σ * 0.5 - b * b * 0.5 + σ * σ * (b * b) / 3 : ℝ) = (3 - b ^ 2) / 6 by
        rw [hσσ]; ring,
      show (1 - b * b * 0.5 - a * a * 0.5 + b * b * (a * a) / 3 : ℝ) =
          (6 - 3 * a ^ 2 - 3 * b ^ 2 + 2 * a ^ 2 * b ^ 2) / 6 by ring,
      show (1 - a * a * 0.5 - σ * σ * 0.5 + a * a * (σ * σ) / 3 : ℝ) = (3 - a ^ 2) / 6 by
        rw [hσσ]; ring]

/-- Closed component form of `cube_to_sphere` when the dominant axis is
`x`. -/
theorem cube_to_sphere_x (a b σ : ℝ) (hσσ : σ * σ = 1) :
    cube_to_sphere σ a b =
      ⟨σ * Real.sqrt ((6 - 3 * a ^ 2 - 3 * b ^ 2 + 2 * a ^ 2 * b ^ 2) / 6),
       a * Real.sqrt ((3 - b ^ 2) / 6),
       b * Real.sqrt ((3 - a ^ 2) / 6)⟩ := by
  unfold cube_to_sphere
  dsimp only
  rw [show (1 - a * a * 0.5 - b * b * 0.5 + a * a * (b * b) / 3 : ℝ) =
        (6 - 3 * a ^ 2 - 3 * b ^ 2 + 2 * a ^ 2 * b ^ 2) / 6 by ring,
      show (1 - b * b * 0.5 - σ * σ * 0.5 + b * b * (σ * σ) / 3 : ℝ) = (3 - b ^ 2) / 6 by
        rw [hσσ]; ring,
      show (1 - σ * σ * 0.5 - a * a * 0.5 + σ * σ * (a * a) / 3 : ℝ) = (3 - a ^ 2) / 6 by
        rw [hσσ]; ring]

/-- Closed component form of `cube_to_sphere` when the dominant axis is
`z`. -/
theorem cube_to_sphere_z (a b σ : ℝ) (hσσ : σ * σ = 1) :
    cube_to_sphere a b σ =
      ⟨a * Real.sqrt ((3 - b ^ 2) / 6),
       b * Real.sqrt ((3 - a ^ 2) / 6),
       σ * Real.sqrt ((6 - 3 * a ^ 2 - 3 * b ^ 2 + 2 * a ^ 2 * b ^ 2) / 6)⟩ := by
  unfold cube_to_sphere
  dsimp only
  rw [show (1 - b * b * 0.5 - σ * σ * 0.5 + b * b * (σ * σ) / 3 : ℝ) = (3 - b ^ 2) / 6 by
        rw [hσσ]; ring,
      show (1 - σ * σ * 0.5 - a * a * 0.5 + σ * σ * (a * a) / 3 : ℝ) = (3 - a ^ 2) / 6 by
        rw [hσσ]; ring,
      show (1 - a * a * 0.5 - b * b * 0.5 + a * a * (b * b) / 3 : ℝ) =
        (6 - 3 * a ^ 2 - 3 * b ^ 2 + 2 * a ^ 2 * b ^ 2) / 6 by ring]

/-- `cubize_point` inverts the forward map on a `y`-dominant cube point
(handles ties: the `y` branch is tested first). -/
theorem cubize_cube_y (a b σ : ℝ) (hσ : σ = 1 ∨ σ = -1)
    (ha : a ^ 2 ≤ 1) (hb : b ^ 2 ≤ 1) :
    cubize_point (cube_to_sphere a σ b) = ⟨a, σ, b⟩ := by
  have hσσ : σ * σ = 1 := by rcases hσ with rfl | rfl <;> norm_num
  have hσ2 : σ ^ 2 = 1 := by rw [sq]; exact hσσ
  rw [cube_to_sphere_y a b σ hσσ]
  have hM0 : (0:ℝ) < (6 - 3 * a ^ 2 - 3 * b ^ 2 + 2 * a ^ 2 * b ^ 2) / 6 := by nlinarith
  have hr1 : (0:ℝ) ≤ (3 - b ^ 2) / 6 := by nlinarith
  have hr2 : (0:ℝ) ≤ (3 - a ^ 2) / 6 := by nlinarith
  have hyx : |σ * Real.sqrt ((6 - 3 * a ^ 2 - 3 * b ^ 2 + 2 * a ^ 2 * b ^ 2) / 6)| ≥
      |a * Real.sqrt ((3 - b ^ 2) / 6)| := by
    apply abs_le_abs_of_sq
    rw [sq_mul_sqrt _ _ hr1, sq_mul_sqrt _ _ (le_of_lt hM0), hσ2]
    nlinarith
  have hyz : |σ * Real.sqrt ((6 - 3 * a ^ 2 - 3 * b ^ 2 + 2 * a ^ 2 * b ^ 2) / 6)| ≥
      |b * Real.sqrt ((3 - a ^ 2) / 6)| := by
    apply abs_le_abs_of_sq
    rw [sq_mul_sqrt _ _ hr2, sq_mul_sqrt _ _ (le_of_lt hM0), hσ2]
    nlinarith
  unfold cubize_point
  dsimp only
  rw [if_pos ⟨hyx, hyz⟩, quad_pair_recover a b ha hb]
  dsimp only
  have hsn : (0:ℝ) ≤ Real.sqrt ((6 - 3 * a ^ 2 - 3 * b ^ 2 + 2 * a ^ 2 * b ^ 2) / 6) :=
    Real.sqrt_nonneg _
  have hmid : (if σ * Real.sqrt ((6 - 3 * a ^ 2 - 3 * b ^ 2 + 2 * a ^ 2 * b ^ 2) / 6) > 0
      then (1:ℝ) else -1) = σ := by
    rcases hσ with rfl | rfl
    · rw [if_pos (by rw [one_mul]; exact Real.sqrt_pos.2 hM0)]
    · rw [if_neg (by nlinarith [hsn])]
  rw [hmid]

/-- `cubize_point` inverts the forward map on an `x`-dominant cube point;
`a² < 1` keeps the tie-breaking `y` branch from firing. -/
theorem cubize_cube_x (a b σ : ℝ) (hσ : σ = 1 ∨ σ = -1)
    (ha : a ^ 2 < 1) (hb : b ^ 2 ≤ 1) :
    cubize_point (cube_to_sphere σ a b) = ⟨σ, a, b⟩ := by
  have hσσ : σ * σ = 1 := by rcases hσ with rfl | rfl <;> norm_num
  have hσ2 : σ ^ 2 = 1 := by rw [sq]; exact hσσ
  rw [cube_to_sphere_x a b σ hσσ]
  have hM0 : (0:ℝ) < (6 - 3 * a ^ 2 - 3 * b ^ 2 + 2 * a ^ 2 * b ^ 2) / 6 := by nlinarith
  have hr1 : (0:ℝ) ≤ (3 - b ^ 2) / 6 := by nlinarith
  have hr2 : (0:ℝ) ≤ (3 - a ^ 2) / 6 := by nlinarith
  have hxy : |a * Real.sqrt ((3 - b ^ 2) / 6)| <
      |σ * Real.sqrt ((6 - 3 * a ^ 2 - 3 * b ^ 2 + 2 * a ^ 2 * b ^ 2) / 6)| := by
    apply abs_lt_abs_of_sq
    rw [sq_mul_sqrt _ _ hr1, sq_mul_sqrt _ _ (le_of_lt hM0), hσ2]
    nlinarith
  have hxz : |σ * Real.sqrt ((6 - 3 * a ^ 2 - 3 * b ^ 2 + 2 * a ^ 2 * b ^ 2) / 6)| ≥
      |b * Real.sqrt ((3 - a ^ 2) / 6)| := by
    apply abs_le_abs_of_sq
    rw [sq_mul_sqrt _ _ hr2, sq_mul_sqrt _ _ (le_of_lt hM0), hσ2]
    nlinarith
  unfold cubize_point
  dsimp only
  rw [if_neg (by intro hcon; exact absurd hcon.1 (not_le.2 hxy)),
      if_pos ⟨le_of_lt hxy, hxz⟩, quad_pair_recover a b ha.le hb]
  dsimp only
  have hsn : (0:ℝ) ≤ Real.sqrt ((6 - 3 * a ^ 2 - 3 * b ^ 2 + 2 * a ^ 2 * b ^ 2) / 6) :=
    Real.sqrt_nonneg _
  have hmid : (if σ * Real.sqrt ((6 - 3 * a ^ 2 - 3 * b ^ 2 + 2 * a ^ 2 * b ^ 2) / 6) > 0
      then (1:ℝ) else -1) = σ := by
    rcases hσ with rfl | rfl
    · rw [if_pos (by rw [one_mul]; exact Real.sqrt_pos.2 hM0)]
    · rw [if_neg (by nlinarith [hsn])]
  rw [hmid]

/-- `cubize_point` inverts the forward map on a `z`-dominant cube point;
both strict bounds keep the earlier branches from firing. -/
theorem cubize_cube_z (a b σ : ℝ) (hσ : σ = 1 ∨ σ = -1)
    (ha : a ^ 2 < 1) (hb : b ^ 2 < 1) :
    cubize_point (cube_to_sphere a b σ) = ⟨a, b, σ⟩ := by
  have hσσ : σ * σ = 1 := by rcases hσ with rfl | rfl <;> norm_num
  have hσ2 : σ ^ 2 = 1 := by rw [sq]; exact hσσ
  rw [cube_to_sphere_z a b σ hσσ]
  have hM0 : (0:ℝ) < (6 - 3 * a ^ 2 - 3 * b ^ 2 + 2 * a ^ 2 * b ^ 2) / 6 := by nlinarith
  have hr1 : (0:ℝ) ≤ (3 - b ^ 2) / 6 := by nlinarith
  have hr2 : (0:ℝ) ≤ (3 - a ^ 2) / 6 := by nlinarith
  have hzy : |b * Real.sqrt ((3 - a ^ 2) / 6)| <
      |σ * Real.sqrt ((6 - 3 * a ^ 2 - 3 * b ^ 2 + 2 * a ^ 2 * b ^ 2) / 6)| := by
    apply abs_lt_abs_of_sq
    rw [sq_mul_sqrt _ _ hr2, sq_mul_sqrt _ _ (le_of_lt hM0), hσ2]
    nlinarith
  have hzx : |a * Real.sqrt ((3 - b ^ 2) / 6)| <
      |σ * Real.sqrt ((6 - 3 * a ^ 2 - 3 * b ^ 2 + 2 * a ^ 2 * b ^ 2) / 6)| := by
    apply abs_lt_abs_of_sq
    rw [sq_mul_sqrt _ _ hr1, sq_mul_sqrt _ _ (le_of_lt hM0), hσ2]
    nlinarith
  unfold cubize_point
  dsimp only
  rw [if_neg (by intro hcon; exact absurd hcon.2 (not_le.2 hzy)),
      if_neg (by intro hcon; exact absurd hcon.2 (not_le.2 hzx)),
      quad_pair_recover a b ha.le hb.le]
  dsimp only
  have hsn : (0:ℝ) ≤ Real.sqrt ((6 - 3 * a ^ 2 - 3 * b ^ 2 + 2 * a ^ 2 * b ^ 2) / 6) :=
    Real.sqrt_nonneg _
  have hmid : (if σ * Real.sqrt ((6 - 3 * a ^ 2 - 3 * b ^ 2 + 2 * a ^ 2 * b ^ 2) / 6) > 0
      then (1:ℝ) else -1) = σ := by
    rcases hσ with rfl | rfl
    · rw [if_pos (by rw [one_mul]; exact Real.sqrt_pos.2 hM0)]
    · rw [if_neg (by nlinarith [hsn])]
  rw [hmid]

/-- Cube surface points (one coordinate of square 1, the others bounded)
map to unit-length sphere points — the forward smoothing map lands on the
unit sphere exactly. -/
theorem cube_to_sphere_length (x y z : ℝ) (h : x ^ 2 = 1 ∨ y ^ 2 = 1 ∨ z ^ 2 = 1)
    (hx : x ^ 2 ≤ 1) (hy : y ^ 2 ≤ 1) (hz : z ^ 2 ≤ 1) :
    (cube_to_sphere x y z).length = 1 := by
  unfold cube_to_sphere Vec3.length
  dsimp only
  have r1 : (0:ℝ) ≤ 1 - y * y * 0.5 - z * z * 0.5 + y * y * (z * z) / 3 := by nlinarith
  have r2 : (0:ℝ) ≤ 1 - z * z * 0.5 - x * x * 0.5 + z * z * (x * x) / 3 := by nlinarith
  have r3 : (0:ℝ) ≤ 1 - x * x * 0.5 - y * y * 0.5 + x * x * (y * y) / 3 := by nlinarith
  rw [sq_mul_sqrt _ _ r1, sq_mul_sqrt _ _ r2, sq_mul_sqrt _ _ r3]
  have hsum : x ^ 2 * (1 - y * y * 0.5 - z * z * 0.5 + y * y * (z * z) / 3) +
      y ^ 2 * (1 - z * z * 0.5 - x * x * 0.5 + z * z * (x * x) / 3) +
      z ^ 2 * (1 - x * x * 0.5 - y * y * 0.5 + x * x * (y * y) / 3) = 1 := by
    rcases h with h1 | h1 | h1
    · linear_combination ((1 - y ^ 2) * (1 - z ^ 2)) * h1
    · linear_combination ((1 - x ^ 2) * (1 - z ^ 2)) * h1
    · linear_combination ((1 - x ^ 2) * (1 - y ^ 2)) * h1
  rw [hsum, Real.sqrt_one]

theorem Vec3.smul_def (c : ℝ) (v : Vec3) : c • v = ⟨c * v.x, c * v.y, c * v.z⟩ := rfl

theorem Vec3.length_smul (c : ℝ) (v : Vec3) : (c • v).length = |c| * v.length := by
  rw [Vec3.smul_def]
  unfold Vec3.length
  dsimp only
  rw [show (c * v.x) ^ 2 + (c * v.y) ^ 2 + (c * v.z) ^ 2 =
        c ^ 2 * (v.x ^ 2 + v.y ^ 2 + v.z ^ 2) by ring,
      Real.sqrt_mul (sq_nonneg c), Real.sqrt_sq_eq_abs]

theorem Vec3.normalize_of_length_one (v : Vec3) (hv : v.length = 1) :
    v.normalize = v := by
  unfold Vec3.normalize
  rw [hv, Vec3.smul_def]
  obtain ⟨vx, vy, vz⟩ := v
  dsimp only
  norm_num

theorem Vec3.normalize_smul_pos (c : ℝ) (v : Vec3) (hc : 0 < c) (hv : v.length = 1) :
    (c • v).normalize = v := by
  unfold Vec3.normalize
  rw [Vec3.length_smul, hv, mul_one, abs_of_pos hc, Vec3.smul_def, Vec3.smul_def]
  obtain ⟨vx, vy, vz⟩ := v
  dsimp only
  simp only [inv_mul_cancel_left₀ (ne_of_gt hc)]

/-- The radial part of `get_local_coords` on a point at exactly the layer
radius: the minimum-radius test fails and the fractional layer is exactly
the integer layer. -/
theorem radial_eval (pos : Vec3) (layer res : ℕ) (hl : layer < res) (hres : 0 < res)
    (hlen : pos.length = get_layer_radius layer res) :
    ¬ pos.length < (res:ℝ) / 2 * Real.exp (-K) ∧
    (res:ℝ) / 2 * (1 + Real.log (pos.length / ((res:ℝ) / 2)) / K) = (layer : ℝ) := by
  have hK : (0:ℝ) < K := by unfold K; norm_num
  have hsR : (0:ℝ) < (res:ℝ) := Nat.cast_pos.2 hres
  have hs : (0:ℝ) < (res:ℝ) / 2 := by linarith
  unfold get_layer_radius at hlen
  dsimp only at hlen
  constructor
  · rw [hlen, not_lt]
    apply mul_le_mul_of_nonneg_left ?_ (le_of_lt hs)
    apply Real.exp_le_exp.2
    have h0 : (0:ℝ) ≤ (layer : ℝ) := Nat.cast_nonneg _
    have h1 : (0:ℝ) ≤ (layer : ℝ) / ((res:ℝ) / 2) := div_nonneg h0 (le_of_lt hs)
    nlinarith
  · rw [hlen, mul_div_cancel_left₀ _ (ne_of_gt hs), Real.log_exp,
        mul_div_cancel_left₀ _ (ne_of_gt hK)]
    field_simp
    ring

/-- The grid part: the raw u coordinate of a vertex-aligned local
coordinate is the original index. -/
theorem grid_eval (w res : ℕ) (hres : 0 < res) :
    ((2 * (w:ℝ) - res) / res * res + res) / 2 = (w:ℝ) := by
  have h : ((res:ℝ)) ≠ 0 := ne_of_gt (Nat.cast_pos.2 hres)
  field_simp

/-- The `x_local`/`y_local` if-chain of `get_direction` in closed form for
an in-range index. -/
theorem x_local_eq (w res : ℕ) (hw : w < res) :
    (if w = 0 then (-1:ℝ) else if w = res then 1 else ((w:ℝ) * 2 - (res:ℝ)) / (res:ℝ)) =
      (2 * (w:ℝ) - (res:ℝ)) / (res:ℝ) := by
  have hres : (0:ℝ) < (res:ℝ) := Nat.cast_pos.2 (by omega)
  by_cases h0 : w = 0
  · subst h0
    rw [if_pos rfl]
    rw [Nat.cast_zero]
    rw [show (2 * (0:ℝ) - (res:ℝ)) / (res:ℝ) = -((res:ℝ) / (res:ℝ)) by ring,
        div_self (ne_of_gt hres)]
  · rw [if_neg h0, if_neg (by omega : ¬ w = res)]
    ring_nf

/-- Squared bounds for the local coordinate of an in-range index: at most
1, and strictly below 1 away from the `w = 0` cube edge. -/
theorem x_local_sq (w res : ℕ) (hw : w < res) :
    ((2 * (w:ℝ) - res) / res) ^ 2 ≤ 1 ∧
    (w ≠ 0 → ((2 * (w:ℝ) - res) / res) ^ 2 < 1) := by
  have hres : (0:ℝ) < (res:ℝ) := Nat.cast_pos.2 (by omega)
  have hwr : (w:ℝ) < (res:ℝ) := Nat.cast_lt.2 hw
  have hw0 : (0:ℝ) ≤ (w:ℝ) := Nat.cast_nonneg _
  have hq : (2 * (w:ℝ) - res) / res * res = 2 * (w:ℝ) - res :=
    div_mul_cancel₀ _ (ne_of_gt hres)
  have hq2 : ((2 * (w:ℝ) - res) / res) ^ 2 * res ^ 2 = (2 * (w:ℝ) - res) ^ 2 := by
    rw [← mul_pow, hq]
  constructor
  · nlinarith [hq2, mul_pos hres hres, mul_nonneg hw0 (sub_nonneg.2 hwr.le)]
  · intro hw1
    have hwpos : (0:ℝ) < (w:ℝ) := Nat.cast_pos.2 (by omega)
    nlinarith [hq2, mul_pos hres hres, mul_pos hwpos (sub_pos.2 hwr)]

/-- Generic evaluation of `get_local_coords` on a point at an exact layer
radius whose normalized direction cubizes to `C`: the result is determined
by the face-dispatch value `(face, UL, VL)` of `C`. -/
theorem get_local_coords_eval (pos : Vec3) (layer res : ℕ) (hl : layer < res)
    (hres : 0 < res) (hlen : pos.length = get_layer_radius layer res)
    (C : Vec3) (hcub : cubize_point pos.normalize = C)
    (face : ℕ) (UL VL : ℝ)
    (hfuv : (if |C.y| ≥ |C.x| ∧ |C.y| ≥ |C.z| then
              if C.y > 0 then ((0:ℕ), C.x, C.z) else (1, C.x, C.z)
             else if |C.x| ≥ |C.y| ∧ |C.x| ≥ |C.z| then
              if C.x > 0 then ((2:ℕ), C.y, C.z) else (3, C.y, C.z)
             else
              if C.z > 0 then ((4:ℕ), C.x, C.y) else (5, C.x, C.y)) = (face, UL, VL)) :
    get_local_coords pos res =
      some (⟨face, layer,
          (min (max ⌊(UL * (res:ℝ) + (res:ℝ)) / 2⌋ 0) ((res:ℤ) - 1)).toNat,
          (min (max ⌊(VL * (res:ℝ) + (res:ℝ)) / 2⌋ 0) ((res:ℤ) - 1)).toNat⟩,
        ⟨(UL * (res:ℝ) + (res:ℝ)) / 2 - (⌊(UL * (res:ℝ) + (res:ℝ)) / 2⌋ : ℤ),
         (VL * (res:ℝ) + (res:ℝ)) / 2 - (⌊(VL * (res:ℝ) + (res:ℝ)) / 2⌋ : ℤ), 0⟩) := by
  obtain ⟨hmin, hlf⟩ := radial_eval pos layer res hl hres hlen
  unfold get_local_coords
  dsimp only
  rw [if_neg hmin, hlf, Int.floor_natCast]
  rw [if_neg (by omega : ¬(((layer:ℕ):ℤ) < 0 ∨ (res:ℤ) ≤ ((layer:ℕ):ℤ)))]
  rw [hcub]
  simp only [Vec3.abs]
  rw [hfuv]
  dsimp only
  rw [Int.toNat_natCast]
  norm_num

/-- Clamp and fraction of a vertex-exact raw grid coordinate: the clamped
index is the original one and the fractional offset vanishes. -/
theorem clamp_of_exact (w res : ℕ) (hw : w < res) :
    (min (max ⌊((2 * (w:ℝ) - res) / res * (res:ℝ) + (res:ℝ)) / 2⌋ 0) ((res:ℤ) - 1)).toNat
        = w ∧
    ((2 * (w:ℝ) - res) / res * (res:ℝ) + (res:ℝ)) / 2 -
        ((⌊((2 * (w:ℝ) - res) / res * (res:ℝ) + (res:ℝ)) / 2⌋ : ℤ) : ℝ) = 0 := by
  have h1 : ((2 * (w:ℝ) - res) / res * (res:ℝ) + (res:ℝ)) / 2 = (w:ℝ) :=
    grid_eval w res (by omega)
  rw [h1, Int.floor_natCast]
  refine ⟨?_, by norm_num⟩
  rw [show min (max ((w:ℕ):ℤ) 0) ((res:ℤ) - 1) = ((w:ℕ):ℤ) by omega, Int.toNat_natCast]

/-- C1 (amended): for every valid address whose cube-face coordinates do
not lie on a cube edge owned by an earlier-tested face (`u = 0` on faces
2–5 and `v = 0` on faces 4–5 are excluded), mapping the address to its 3D
position with `get_vertex_pos` and back with `get_local_coords` recovers
exactly the same `BlockId`, with all three fractional offsets equal to 0. -/
theorem position_address_roundtrip (face u v layer res : ℕ)
    (hface : face < 6) (hu : u < res) (hv : v < res) (hl : layer < res)
    (hu0 : 2 ≤ face → u ≠ 0) (hv0 : 4 ≤ face → v ≠ 0) :
    get_local_coords (get_vertex_pos face u v layer res) res =
      some (⟨face, layer, u, v⟩, ⟨0, 0, 0⟩) := by
  have hres : 0 < res := by omega
  have hresR : (0:ℝ) < (res:ℝ) := Nat.cast_pos.2 hres
  obtain ⟨hxle, hxlt⟩ := x_local_sq u res hu
  obtain ⟨hyle, hylt⟩ := x_local_sq v res hv
  have hXL := x_local_eq u res hu
  have hYL := x_local_eq v res hv
  have hrad : 0 < get_layer_radius layer res := by
    unfold get_layer_radius
    dsimp only
    exact mul_pos (by linarith) (Real.exp_pos _)
  have hau : |(2 * (u:ℝ) - res) / res| ≤ 1 := by
    have h := abs_le_abs_of_sq ((2 * (u:ℝ) - res) / res) 1 (by rw [one_pow]; exact hxle)
    rwa [abs_one] at h
  have hav : |(2 * (v:ℝ) - res) / res| ≤ 1 := by
    have h := abs_le_abs_of_sq ((2 * (v:ℝ) - res) / res) 1 (by rw [one_pow]; exact hyle)
    rwa [abs_one] at h
  have hau1 : u ≠ 0 → |(2 * (u:ℝ) - res) / res| < 1 := by
    intro h0
    have h := abs_lt_abs_of_sq ((2 * (u:ℝ) - res) / res) 1 (by rw [one_pow]; exact hxlt h0)
    rwa [abs_one] at h
  have hav1 : v ≠ 0 → |(2 * (v:ℝ) - res) / res| < 1 := by
    intro h0
    have h := abs_lt_abs_of_sq ((2 * (v:ℝ) - res) / res) 1 (by rw [one_pow]; exact hylt h0)
    rwa [abs_one] at h
  obtain ⟨hcu, hfu⟩ := clamp_of_exact u res hu
  obtain ⟨hcv, hfv⟩ := clamp_of_exact v res hv
  interval_cases face
  · -- face 0 : cube point (xl, 1, yl)
    have hlen1 : (cube_to_sphere ((2 * (u:ℝ) - res) / res) 1
        ((2 * (v:ℝ) - res) / res)).length = 1 :=
      cube_to_sphere_length _ 1 _ (Or.inr (Or.inl (by norm_num))) hxle (by norm_num) hyle
    have hS : get_direction 0 u v res =
        cube_to_sphere ((2 * (u:ℝ) - res) / res) 1 ((2 * (v:ℝ) - res) / res) := by
      unfold get_direction
      dsimp only
      rw [hXL, hYL]
      exact Vec3.normalize_of_length_one _ hlen1
    have hpos : get_vertex_pos 0 u v layer res = get_layer_radius layer res •
        cube_to_sphere ((2 * (u:ℝ) - res) / res) 1 ((2 * (v:ℝ) - res) / res) := by
      unfold get_vertex_pos
      dsimp only
      rw [hS]
    rw [hpos]
    rw [get_local_coords_eval _ layer res hl hres
      (by rw [Vec3.length_smul, hlen1, mul_one, abs_of_pos hrad])
      ⟨(2 * (u:ℝ) - res) / res, 1, (2 * (v:ℝ) - res) / res⟩
      (by rw [Vec3.normalize_smul_pos _ _ hrad hlen1]
          exact cubize_cube_y _ _ 1 (Or.inl rfl) hxle hyle)
      0 ((2 * (u:ℝ) - res) / res) ((2 * (v:ℝ) - res) / res)
      (by dsimp only
          rw [if_pos ⟨by rw [abs_one]; exact hau, by rw [abs_one]; exact hav⟩,
              if_pos (by norm_num : (1:ℝ) > 0)])]
    rw [hcu, hcv, hfu, hfv]
  · -- face 1 : cube point (xl, -1, yl)
    have hlen1 : (cube_to_sphere ((2 * (u:ℝ) - res) / res) (-1)
        ((2 * (v:ℝ) - res) / res)).length = 1 :=
      cube_to_sphere_length _ (-1) _ (Or.inr (Or.inl (by norm_num))) hxle (by norm_num) hyle
    have hS : get_direction 1 u v res =
        cube_to_sphere ((2 * (u:ℝ) - res) / res) (-1) ((2 * (v:ℝ) - res) / res) := by
      unfold get_direction
      dsimp only
      rw [hXL, hYL]
      exact Vec3.normalize_of_length_one _ hlen1
    have hpos : get_vertex_pos 1 u v layer res = get_layer_radius layer res •
        cube_to_sphere ((2 * (u:ℝ) - res) / res) (-1) ((2 * (v:ℝ) - res) / res) := by
      unfold get_vertex_pos
      dsimp only
      rw [hS]
    rw [hpos]
    rw [get_local_coords_eval _ layer res hl hres
      (by rw [Vec3.length_smul, hlen1, mul_one, abs_of_pos hrad])
      ⟨(2 * (u:ℝ) - res) / res, -1, (2 * (v:ℝ) - res) / res⟩
      (by rw [Vec3.normalize_smul_pos _ _ hrad hlen1]
          exact cubize_cube_y _ _ (-1) (Or.inr rfl) hxle hyle)
      1 ((2 * (u:ℝ) - res) / res) ((2 * (v:ℝ) - res) / res)
      (by dsimp only
          rw [if_pos ⟨by rw [show |(-1:ℝ)| = 1 by norm_num]; exact hau,
                by rw [show |(-1:ℝ)| = 1 by norm_num]; exact hav⟩,
              if_neg (by norm_num : ¬((-1:ℝ) > 0))])]
    rw [hcu, hcv, hfu, hfv]
  · -- face 2 : cube point (1, xl, yl), needs u ≠ 0
    have hu0' : u ≠ 0 := hu0 (by norm_num)
    have hlen1 : (cube_to_sphere 1 ((2 * (u:ℝ) - res) / res)
        ((2 * (v:ℝ) - res) / res)).length = 1 :=
      cube_to_sphere_length 1 _ _ (Or.inl (by norm_num)) (by norm_num) hxle hyle
    have hS : get_direction 2 u v res =
        cube_to_sphere 1 ((2 * (u:ℝ) - res) / res) ((2 * (v:ℝ) - res) / res) := by
      unfold get_direction
      dsimp only
      rw [hXL, hYL]
      exact Vec3.normalize_of_length_one _ hlen1
    have hpos : get_vertex_pos 2 u v layer res = get_layer_radius layer res •
        cube_to_sphere 1 ((2 * (u:ℝ) - res) / res) ((2 * (v:ℝ) - res) / res) := by
      unfold get_vertex_pos
      dsimp only
      rw [hS]
    rw [hpos]
    rw [get_local_coords_eval _ layer res hl hres
      (by rw [Vec3.length_smul, hlen1, mul_one, abs_of_pos hrad])
      ⟨1, (2 * (u:ℝ) - res) / res, (2 * (v:ℝ) - res) / res⟩
      (by rw [Vec3.normalize_smul_pos _ _ hrad hlen1]
          exact cubize_cube_x _ _ 1 (Or.inl rfl) (hxlt hu0') hyle)
      2 ((2 * (u:ℝ) - res) / res) ((2 * (v:ℝ) - res) / res)
      (by dsimp only
          rw [if_neg (fun hc => absurd hc.1
                (not_le.2 (by rw [abs_one]; exact hau1 hu0'))),
              if_pos ⟨by rw [abs_one]; exact le_of_lt (hau1 hu0'),
                by rw [abs_one]; exact hav⟩,
              if_pos (by norm_num : (1:ℝ) > 0)])]
    rw [hcu, hcv, hfu, hfv]
  · -- face 3 : cube point (-1, xl, yl), needs u ≠ 0
    have hu0' : u ≠ 0 := hu0 (by norm_num)
    have hlen1 : (cube_to_sphere (-1) ((2 * (u:ℝ) - res) / res)
        ((2 * (v:ℝ) - res) / res)).length = 1 :=
      cube_to_sphere_length (-1) _ _ (Or.inl (by norm_num)) (by norm_num) hxle hyle
    have hS : get_direction 3 u v res =
        cube_to_sphere (-1) ((2 * (u:ℝ) - res) / res) ((2 * (v:ℝ) - res) / res) := by
      unfold get_direction
      dsimp only
      rw [hXL, hYL]
      exact Vec3.normalize_of_length_one _ hlen1
    have hpos : get_vertex_pos 3 u v layer res = get_layer_radius layer res •
        cube_to_sphere (-1) ((2 * (u:ℝ) - res) / res) ((2 * (v:ℝ) - res) / res) := by
      unfold get_vertex_pos
      dsimp only
      rw [hS]
    rw [hpos]
    rw [get_local_coords_eval _ layer res hl hres
      (by rw [Vec3.length_smul, hlen1, mul_one, abs_of_pos hrad])
      ⟨-1, (2 * (u:ℝ) - res) / res, (2 * (v:ℝ) - res) / res⟩
      (by rw [Vec3.normalize_smul_pos _ _ hrad hlen1]
          exact cubize_cube_x _ _ (-1) (Or.inr rfl) (hxlt hu0') hyle)
      3 ((2 * (u:ℝ) - res) / res) ((2 * (v:ℝ) - res) / res)
      (by dsimp only
          rw [if_neg (fun hc => absurd hc.1
                (not_le.2 (by rw [show |(-1:ℝ)| = 1 by norm_num]; exact hau1 hu0'))),
              if_pos ⟨by rw [show |(-1:ℝ)| = 1 by norm_num]; exact le_of_lt (hau1 hu0'),
                by rw [show |(-1:ℝ)| = 1 by norm_num]; exact hav⟩,
              if_neg (by norm_num : ¬((-1:ℝ) > 0))])]
    rw [hcu, hcv, hfu, hfv]
  · -- face 4 : cube point (xl, yl, 1), needs u ≠ 0 and v ≠ 0
    have hu0' : u ≠ 0 := hu0 (by norm_num)
    have hv0' : v ≠ 0 := hv0 (by norm_num)
    have hlen1 : (cube_to_sphere ((2 * (u:ℝ) - res) / res)
        ((2 * (v:ℝ) - res) / res) 1).length = 1 :=
      cube_to_sphere_length _ _ 1 (Or.inr (Or.inr (by norm_num))) hxle hyle (by norm_num)
    have hS : get_direction 4 u v res =
        cube_to_sphere ((2 * (u:ℝ) - res) / res) ((2 * (v:ℝ) - res) / res) 1 := by
      unfold get_direction
      dsimp only
      rw [hXL, hYL]
      exact Vec3.normalize_of_length_one _ hlen1
    have hpos : get_vertex_pos 4 u v layer res = get_layer_radius layer res •
        cube_to_sphere ((2 * (u:ℝ) - res) / res) ((2 * (v:ℝ) - res) / res) 1 := by
      unfold get_vertex_pos
      dsimp only
      rw [hS]
    rw [hpos]
    rw [get_local_coords_eval _ layer res hl hres
      (by rw [Vec3.length_smul, hlen1, mul_one, abs_of_pos hrad])
      ⟨(2 * (u:ℝ) - res) / res, (2 * (v:ℝ) - res) / res, 1⟩
      (by rw [Vec3.normalize_smul_pos _ _ hrad hlen1]
          exact cubize_cube_z _ _ 1 (Or.inl rfl) (hxlt hu0') (hylt hv0'))
      4 ((2 * (u:ℝ) - res) / res) ((2 * (v:ℝ) - res) / res)
      (by dsimp only
          rw [if_neg (fun hc => absurd hc.2
                (not_le.2 (by rw [abs_one]; exact hav1 hv0'))),
              if_neg (fun hc => absurd hc.2
                (not_le.2 (by rw [abs_one]; exact hau1 hu0'))),
              if_pos (by norm_num : (1:ℝ) > 0)])]
    rw [hcu, hcv, hfu, hfv]
  · -- face 5 : cube point (xl, yl, -1), needs u ≠ 0 and v ≠ 0
    have hu0' : u ≠ 0 := hu0 (by norm_num)
    have hv0' : v ≠ 0 := hv0 (by norm_num)
    have hlen1 : (cube_to_sphere ((2 * (u:ℝ) - res) / res)
        ((2 * (v:ℝ) - res) / res) (-1)).length = 1 :=
      cube_to_sphere_length _ _ (-1) (Or.inr (Or.inr (by norm_num))) hxle hyle (by norm_num)
    have hS : get_direction 5 u v res =
        cube_to_sphere ((2 * (u:ℝ) - res) / res) ((2 * (v:ℝ) - res) / res) (-1) := by
      unfold get_direction
      dsimp only
      rw [hXL, hYL]
      exact Vec3.normalize_of_length_one _ hlen1
    have hpos : get_vertex_pos 5 u v layer res = get_layer_radius layer res •
        cube_to_sphere ((2 * (u:ℝ) - res) / res) ((2 * (v:ℝ) - res) / res) (-1) := by
      unfold get_vertex_pos
      dsimp only
      rw [hS]
    rw [hpos]
    rw [get_local_coords_eval _ layer res hl hres
      (by rw [Vec3.length_smul, hlen1, mul_one, abs_of_pos hrad])
      ⟨(2 * (u:ℝ) - res) / res, (2 * (v:ℝ) - res) / res, -1⟩
      (by rw [Vec3.normalize_smul_pos _ _ hrad hlen1]
          exact cubize_cube_z _ _ (-1) (Or.inr rfl) (hxlt hu0') (hylt hv0'))
      5 ((2 * (u:ℝ) - res) / res) ((2 * (v:ℝ) - res) / res)
      (by dsimp only
          rw [if_neg (fun hc => absurd hc.2
                (not_le.2 (by rw [show |(-1:ℝ)| = 1 by norm_num]; exact hav1 hv0'))),
              if_neg (fun hc => absurd hc.2
                (not_le.2 (by rw [show |(-1:ℝ)| = 1 by norm_num]; exact hau1 hu0'))),
              if_neg (by norm_num : ¬((-1:ℝ) > 0))])]
    rw [hcu, hcv, hfu, hfv]

/-- Witness for C1 (amended) at a concrete interior address. -/
theorem position_address_roundtrip_witness :
    get_local_coords (get_vertex_pos 0 0 0 0 2) 2 = some (⟨0, 0, 0, 0⟩, ⟨0, 0, 0⟩) :=
  position_address_roundtrip 0 0 0 0 2 (by norm_num) (by norm_num) (by norm_num)
    (by norm_num) (by omega) (by omega)

/-- Counterexample to C1 as stated: the valid address `(face 2, u 0, v 1,
layer 1)` at resolution 2 sits on the cube edge shared with face 1, and
the tie-breaking in `cubize_point` (the `y` branch is tested first)
re-addresses its vertex position as `(face 1, layer 1, u 1, v 1)` — a
different `BlockId`, not merely a fractional deviation. -/
theorem position_address_roundtrip_cex :
    get_local_coords (get_vertex_pos 2 0 1 1 2) 2 = some (⟨1, 1, 1, 1⟩, ⟨0, 0, 0⟩) ∧
    (⟨1, 1, 1, 1⟩ : BlockId) ≠ ⟨2, 1, 0, 1⟩ := by
  constructor
  · have hlen1 : (cube_to_sphere 1 (-1) 0).length = 1 :=
      cube_to_sphere_length 1 (-1) 0 (Or.inl (by norm_num)) (by norm_num) (by norm_num)
        (by norm_num)
    have hrad : 0 < get_layer_radius 1 2 := by
      unfold get_layer_radius
      dsimp only
      exact mul_pos (by norm_num) (Real.exp_pos _)
    have hS : get_direction 2 0 1 2 = cube_to_sphere 1 (-1) 0 := by
      unfold get_direction
      dsimp only
      norm_num
      exact Vec3.normalize_of_length_one _ hlen1
    have hpos : get_vertex_pos 2 0 1 1 2 =
        get_layer_radius 1 2 • cube_to_sphere 1 (-1) 0 := by
      unfold get_vertex_pos
      dsimp only
      rw [hS]
    rw [hpos]
    rw [get_local_coords_eval _ 1 2 (by norm_num) (by norm_num)
      (by rw [Vec3.length_smul, hlen1, mul_one, abs_of_pos hrad])
      ⟨1, -1, 0⟩
      (by rw [Vec3.normalize_smul_pos _ _ hrad hlen1]
          exact cubize_cube_y 1 0 (-1) (Or.inr rfl) (by norm_num) (by norm_num))
      1 1 0
      (by dsimp only
          rw [if_pos ⟨by norm_num, by norm_num⟩, if_neg (by norm_num : ¬((-1:ℝ) > 0))])]
    norm_num
  · decide

end Voxanet
